import Mathlib

/-!
Verification of the SUSHI compiler core against its specification.

The development shallowly embeds the parts of the program that the claims
are about:

* `Sushi.Exporter`  — the Instance Exporter (`InstanceExporter` in
  `src/unnamed/part_003`): `exportInstance`, its duplicate-id check, the
  `instanceOf` resolution, the single-export guard and the export loop.
* `Sushi.Implied`   — the implied-value / assignment-ordering semantics of
  `setAssignedValues` (the helpers `setImpliedPropertiesOnInstance` and
  `setPropertyOnInstance` live in `src/fhirtypes/common`, outside the
  provided sources, and are modelled from the spec).
* `Sushi.RefRes`    — reference resolution for `Reference(Name)` values
  (`replaceReferences`, modelled from the spec).
* `Sushi.Importer`  — the FSH importer single-use guard (`FSHImporter.visitDoc`
  in `src/unnamed/part_002`).
* `Sushi.Multiline` — `FSHImporter.extractMultilineString`
  (`src/unnamed/part_002`).
* `Sushi.SDExp`     — the StructureDefinition (Extension) export loop
  (modelled from the spec, only its tests are in the sources).
* `Sushi.IgIni`     — `IGExporter.addIgIni` (modelled from the spec and its
  test file `src/unnamed/part_000`).
-/

namespace Sushi

namespace Exporter

/-- The lookup kinds used by the Fishable port (`Type` in `src/utils`). -/
inductive FishKind where
  | resource
  | profile
  | extension
  | fhirType
deriving DecidableEq

/-- The JSON returned by `fisher.fishForFHIR` for a StructureDefinition:
the fields of it that `InstanceExporter.exportInstance` reads
(`json.kind`, and through `StructureDefinition.fromJSON` the `type`,
`url` and `derivation`). -/
structure FHIRJson where
  kind : String
  type : String
  url : String
  derivation : Option String
deriving DecidableEq

/-- Modelled from the spec: the Fishable port (spec section 4.4; the concrete
fisher implementations are not under `src/`).  An entry table indexed by kind
and name; `fishForFHIR` returns the first match in the given kind order. -/
structure Fisher where
  entries : FishKind → String → Option FHIRJson

/-- Modelled from the spec: `fishForFHIR` "prefers the first match in the
given kind order" (spec section 4.4). -/
def fishOrder (f : Fisher) (item : String) : List FishKind → Option FHIRJson
  | [] => none
  | k :: ks =>
    match f.entries k item with
    | some j => some j
    | none => fishOrder f item ks

/-- The kind order passed by `exportInstance`
(`Type.Resource, Type.Profile, Type.Extension, Type.Type`,
`src/unnamed/part_003` lines 221-227). -/
def fishKinds : List FishKind :=
  [FishKind.resource, FishKind.profile, FishKind.extension, FishKind.fhirType]

/-- An assignment rule of a FSH `Instance`: either a plain value assignment
(`AssignmentRule` with a scalar value) or an instance-valued assignment
(`isInstance = true`, the value names another instance in the tank). -/
inductive ARule where
  | assign (path : String) (value : String)
  | assignInstance (path : String) (name : String)
deriving DecidableEq

/-- A FSH `Instance` entity as consumed by `InstanceExporter.exportInstance`:
`name`, `id` (in FSH the `id` property defaults to the name), `instanceOf`,
`usage`, optional `title`/`description`, its assignment rules and a source
span (represented by an opaque number). -/
structure FshInstance where
  name : String
  fshId : String
  instanceOf : String
  usage : Option String
  title : Option String := none
  description : Option String := none
  rules : List ARule := []
  sourceInfo : Nat
deriving DecidableEq

/-- The exported `InstanceDefinition`: the `_instanceMeta` fields, the
`resourceType`/`id` set for resource instances, `sdType` for non-resources,
`meta.profile`, and a flat map for the remaining assigned fields. -/
structure InstanceDefinition where
  metaName : String
  metaUsage : Option String
  metaTitle : Option String := none
  metaDescription : Option String := none
  resourceType : Option String := none
  id : Option String := none
  sdType : Option String := none
  metaProfile : List String := []
  fields : List (String × String) := []
deriving DecidableEq

inductive LogLevel where
  | error
  | warn
  | info
deriving DecidableEq

/-- The diagnostics emitted by the Instance Exporter, keyed by message kind. -/
inductive Msg where
  | instanceOfNotDefined (name instOf : String)
  | notAResource (name : String)
  | duplicateInstanceId (rt iid : Option String)
  | invalidId (iid : String)
  | sanitizedId (oldId newId : String)
  | cannotFindInstance (v : String)
  | convertedInstances (n : Nat)
deriving DecidableEq

structure LogEntry where
  level : LogLevel
  msg : Msg
  span : Option Nat
deriving DecidableEq

/-- The mutable state touched by `exportInstance`: the package instance list
(`pkg.instances`) and the logger stream. -/
structure ExpState where
  instances : List InstanceDefinition
  log : List LogEntry
deriving DecidableEq

/-- The data of an `InstanceOfNotDefinedError` (`src/errors`): the entity
name, the unresolvable `instanceOf` and the source span it carries. -/
structure ErrInfo where
  name : String
  instOf : String
  span : Nat
deriving DecidableEq

/-- `pkg.instances.some(i => i._instanceMeta.name === n)` — the single-export
guard test (`src/unnamed/part_003` line 216). -/
def containsName (l : List InstanceDefinition) (n : String) : Bool :=
  l.any fun i => i.metaName = n

/-- Modelled from the spec: `Package.fish(item, Type.Instance)`
(`src/export`, not under `src/`): looks an exported instance up by its
FSH name. -/
def pkgFish (l : List InstanceDefinition) (n : String) : Option InstanceDefinition :=
  l.find? fun i => i.metaName = n

/-- Modelled from the spec: `tank.fish(item, Type.Instance)` matches a FSH
instance by name or id (spec section 4.4). -/
def tankFish (tank : List FshInstance) (n : String) : Option FshInstance :=
  tank.find? fun i => i.name = n ∨ i.fshId = n

/-- One step of `r.path.replace(/\[0+\]/g, '')` (`src/unnamed/part_003`
line 36): removes every maximal `[0…0]` group from the character list.
The fuel argument (instantiated with the list length) only makes the
recursion structural. -/
def stripZeroIndexAux : Nat → List Char → List Char
  | 0, _ => []
  | _, [] => []
  | fuel + 1, c :: rest =>
    if c = '[' then
      let zs := rest.takeWhile (· = '0')
      if !zs.isEmpty ∧ (rest.drop zs.length).head? = some ']' then
        stripZeroIndexAux fuel (rest.drop (zs.length + 1))
      else c :: stripZeroIndexAux fuel rest
    else c :: stripZeroIndexAux fuel rest

/-- Path normalization of assignment rules: collapse optional `[0]` indices. -/
def normalizePath (p : String) : String :=
  ⟨stripZeroIndexAux p.data.length p.data⟩

def normRule : ARule → ARule
  | .assign p v => .assign (normalizePath p) v
  | .assignInstance p n => .assignInstance (normalizePath p) n

/-- A character admissible in a FHIR id (`A-Z`, `a-z`, `0-9`, `-`, `.`). -/
def idChar (c : Char) : Bool :=
  c.isAlpha || c.isDigit || c = '-' || c = '.'

/-- Modelled from the spec: the FHIR id shape
`[A-Za-z0-9\-\.]{1,64}` (spec section 3, invariants; the implementation
`InstanceDefinition.validateId` lives in `src/fhirtypes`, outside the
provided sources). -/
def validFhirId (s : String) : Bool :=
  1 ≤ s.length && s.length ≤ 64 && s.data.all idChar

/-- A character admissible after the first one in a FHIR name. -/
def nameChar (c : Char) : Bool :=
  c.isAlpha || c.isDigit || c = '_'

/-- Modelled from the spec: an "otherwise-valid FHIR name"
(`[A-Za-z][A-Za-z0-9_]{0,254}`). -/
def validFhirName (s : String) : Bool :=
  match s.data with
  | [] => false
  | c :: rest => c.isAlpha && rest.all nameChar && s.length ≤ 255

/-- Modelled from the spec: id sanitization, "names that are otherwise-valid
but contain `_` are sanitized to `-` with a warning", conforming to the
64-character limit (spec section 3 and the tests at
`src/unnamed/part_001` lines 236-275). -/
def sanitizeId (s : String) : String :=
  ⟨(s.data.map fun c => if c = '_' then '-' else c).take 64⟩

/-- Modelled from the spec: `InstanceDefinition.validateId` (called at
`src/unnamed/part_003` line 280, implementation in `src/fhirtypes`, outside
the provided sources): a malformed id is reported but the instance keeps it;
an id that is a valid FHIR name is sanitized with a warning and replaced. -/
def validateId (idef : InstanceDefinition) (span : Nat) :
    InstanceDefinition × List LogEntry :=
  match idef.id with
  | none => (idef, [])
  | some i =>
    if validFhirId i then (idef, [])
    else if validFhirName i then
      ({ idef with id := some (sanitizeId i) },
        [⟨LogLevel.warn, Msg.sanitizedId i (sanitizeId i), some span⟩])
    else (idef, [⟨LogLevel.error, Msg.invalidId i, some span⟩])

/-- Update one entry of the flat field map, appending when absent. -/
def setField (fields : List (String × String)) (p v : String) :
    List (String × String) :=
  if fields.any fun e => e.1 = p then
    fields.map fun e => if e.1 = p then (p, v) else e
  else fields ++ [(p, v)]

/-- Modelled from the spec: `setPropertyOnInstance` applied to one rule
(`src/fhirtypes/common`, outside the provided sources): an assignment at
path `id` overwrites the instance id; other paths land in the flat field
map; instance-valued rules do not touch the scalar fields modelled here. -/
def applyRule (idef : InstanceDefinition) : ARule → InstanceDefinition
  | .assign p v =>
    if p = "id" then { idef with id := some v }
    else { idef with fields := setField idef.fields p v }
  | .assignInstance _ _ => idef

/-- Explicit assignments applied in source order
(`ruleMap.forEach(...)`, `src/unnamed/part_003` line 118). -/
def applyRules (rules : List ARule) (idef : InstanceDefinition) :
    InstanceDefinition :=
  rules.foldl applyRule idef

/-- The result of `exportInstance`: the thrown `InstanceOfNotDefinedError`
or the (optional) produced `InstanceDefinition`, together with the state
mutations already performed. -/
abbrev ExpResult := Except ErrInfo (Option InstanceDefinition) × ExpState

/-- The conversion of instance-valued rules (`src/unnamed/part_003` lines
40-55): fish the package, else export the tank instance on demand and fish
again; a rule whose instance cannot be found is dropped with an error; an
exception raised by the on-demand export propagates. -/
def resolveInstanceRules (tank : List FshInstance)
    (recFn : Option (FshInstance → ExpState → ExpResult)) :
    List ARule → ExpState → Except ErrInfo Unit × ExpState
  | [], st => (Except.ok (), st)
  | ARule.assign _ _ :: rs, st => resolveInstanceRules tank recFn rs st
  | ARule.assignInstance _ n :: rs, st =>
    if (pkgFish st.instances n).isSome then resolveInstanceRules tank recFn rs st
    else
      match tankFish tank n, recFn with
      | some g, some r =>
        match r g st with
        | (Except.error e, st') => (Except.error e, st')
        | (Except.ok _, st') =>
          if (pkgFish st'.instances n).isSome then
            resolveInstanceRules tank recFn rs st'
          else
            resolveInstanceRules tank recFn rs
              { st' with
                log := st'.log ++ [⟨LogLevel.error, Msg.cannotFindInstance n, none⟩] }
      | _, _ =>
        resolveInstanceRules tank recFn rs
          { st with log := st.log ++ [⟨LogLevel.error, Msg.cannotFindInstance n, none⟩] }

/-- Replace the package entry with the given `_instanceMeta.name`: the
functional rendering of the in-place mutation of the pushed
`InstanceDefinition` object. -/
def replaceByName (l : List InstanceDefinition) (n : String)
    (idef : InstanceDefinition) : List InstanceDefinition :=
  l.map fun i => if i.metaName = n then idef else i

/-- The duplicate-id check (`src/unnamed/part_003` lines 292-300): another
non-inline instance of the same type with the same id, other than the one
just exported. -/
def hasDuplicate (l : List InstanceDefinition) (idef : InstanceDefinition) : Bool :=
  idef.metaUsage ≠ some "Inline" &&
    l.any fun i =>
      i.metaUsage ≠ some "Inline" && i.resourceType = idef.resourceType &&
        i.id = idef.id && i ≠ idef

/-- The freshly initialized `InstanceDefinition` pushed into the package
(`src/unnamed/part_003` lines 251-273): metadata, and for resource kinds
`resourceType`/`id` plus `meta.profile` for constrained SDs. -/
def initIdef (fsh : FshInstance) (json : FHIRJson) : InstanceDefinition :=
  { metaName := fsh.fshId
    metaUsage := if json.kind = "resource" then fsh.usage else some "Inline"
    metaTitle := fsh.title
    metaDescription := fsh.description
    resourceType := if json.kind = "resource" then some json.type else none
    id := if json.kind = "resource" then some fsh.fshId else none
    sdType := if json.kind = "resource" then none else some json.type
    metaProfile :=
      if json.kind = "resource" ∧ json.derivation = some "constraint"
      then [json.url] else []
    fields := [] }

/-- The one-shot warning of `src/unnamed/part_003` lines 240-246: emitted
for non-resource kinds unless the author declared `Usage: #inline`. -/
def initWarnLog (fsh : FshInstance) (json : FHIRJson) : List LogEntry :=
  if json.kind = "resource" ∨ fsh.usage = some "Inline" then []
  else [⟨LogLevel.warn, Msg.notAResource fsh.name, some fsh.sourceInfo⟩]

/-- The tail of `exportInstance` after rule resolution
(`src/unnamed/part_003` lines 279-308): apply the assignments, validate the
id, reflect the mutations into the package entry, run the duplicate-id
check. -/
def finishInstance (fsh : FshInstance) (json : FHIRJson) (rules1 : List ARule)
    (st2 : ExpState) : ExpResult :=
  let idef1 := applyRules rules1 (initIdef fsh json)
  let vres := validateId idef1 fsh.sourceInfo
  let idef2 := vres.1
  let st3 : ExpState :=
    ⟨replaceByName st2.instances fsh.fshId idef2, st2.log ++ vres.2⟩
  let st4 : ExpState :=
    if hasDuplicate st3.instances idef2 then
      { st3 with
        log := st3.log ++
          [⟨LogLevel.error, Msg.duplicateInstanceId idef2.resourceType idef2.id,
            some fsh.sourceInfo⟩] }
    else st3
  (Except.ok (some idef2), st4)

/-- `InstanceExporter.exportInstance` (`src/unnamed/part_003` lines 215-309)
with the recursive on-demand export abstracted into `recFn`:

1. the single-export guard on `_instanceMeta.name`;
2. `instanceOf` resolution through the fisher with the kind order
   Resource, Profile, Extension, Type; a miss throws
   `InstanceOfNotDefinedError`;
3. a non-resource kind forces `usage = Inline`, warning only when the
   author had not declared `Usage: #inline` (`initIdef`, `initWarnLog`);
4. metadata initialization and the early push into the package;
5. rule processing (`setAssignedValues`) and id validation, and
6. the duplicate-id check (`finishInstance`).

The SD-implied values of `setAssignedValues` are modelled separately
(`Sushi.Implied`); they do not touch the fields this model tracks. -/
def exportInstanceCore (f : Fisher) (tank : List FshInstance)
    (recFn : Option (FshInstance → ExpState → ExpResult))
    (fsh : FshInstance) (st : ExpState) : ExpResult :=
  if containsName st.instances fsh.fshId then (Except.ok none, st)
  else
    match fishOrder f fsh.instanceOf fishKinds with
    | none => (Except.error ⟨fsh.name, fsh.instanceOf, fsh.sourceInfo⟩, st)
    | some json =>
      let st1 : ExpState :=
        ⟨st.instances ++ [initIdef fsh json], st.log ++ initWarnLog fsh json⟩
      let rules1 := fsh.rules.map normRule
      match resolveInstanceRules tank recFn rules1 st1 with
      | (Except.error e, st2) => (Except.error e, st2)
      | (Except.ok _, st2) => finishInstance fsh json rules1 st2

/-- `exportInstance` with a fuel bound on the depth of on-demand exports
(the source recursion terminates because each call pushes its instance
before recursing; the fuel makes that explicit). -/
def exportInstance (f : Fisher) (tank : List FshInstance) :
    Nat → FshInstance → ExpState → ExpResult
  | 0 => exportInstanceCore f tank none
  | n + 1 => exportInstanceCore f tank (some (exportInstance f tank n))

/-- The loop body of `InstanceExporter.export` (`src/unnamed/part_003`
lines 318-324): a thrown error is caught and logged with the error's
source span. -/
def exportStep (f : Fisher) (tank : List FshInstance) (fuel : Nat)
    (st : ExpState) (i : FshInstance) : ExpState :=
  match exportInstance f tank fuel i st with
  | (Except.ok _, st') => st'
  | (Except.error e, st') =>
    { st' with
      log := st'.log ++
        [⟨LogLevel.error, Msg.instanceOfNotDefined e.name e.instOf, some e.span⟩] }

/-- `InstanceExporter.export` (`src/unnamed/part_003` lines 316-329). -/
def exportInstances (f : Fisher) (tank : List FshInstance) (fuel : Nat)
    (insts : List FshInstance) (st : ExpState) : ExpState :=
  let s := insts.foldl (exportStep f tank fuel) st
  if insts.length > 0 then
    { s with log := s.log ++ [⟨LogLevel.info, Msg.convertedInstances insts.length, none⟩] }
  else s

end Exporter

namespace Implied

/-!
Modelled from the spec: `setImpliedPropertiesOnInstance` and
`setPropertyOnInstance` (`src/fhirtypes/common`, outside the provided
sources).  Spec section 4.3, steps 7 and 8: "for every ancestor of any rule
path, gather `pattern[x]`/`fixed[x]` from the SD and apply them first.
Implied values never overwrite explicit ones; they materialize only at
paths that are reached (i.e., whose parent array or object is instantiated
by some rule)", then "(a) implied values along reached paths, (b) explicit
assignments in source order, with later assignments overwriting earlier at
the same concrete path".  The instance is modelled as a flat map from
concrete dotted paths to values; the StructureDefinition contributes a list
of `(path, implied value)` pattern entries.
-/

/-- Split a character list on a separator character. -/
def splitOnChar (sep : Char) : List Char → List (List Char)
  | [] => [[]]
  | c :: rest =>
    if c = sep then [] :: splitOnChar sep rest
    else
      match splitOnChar sep rest with
      | l :: ls => (c :: l) :: ls
      | [] => [[c]]

/-- The segments of a dotted path. -/
def pathSegs (p : String) : List String :=
  (splitOnChar '.' p.data).map fun l => ⟨l⟩

/-- The parent of a dotted path (`a.b.c ↦ a.b`; a top-level path has the
empty root as parent). -/
def parentOf (p : String) : String :=
  String.intercalate "." (pathSegs p).dropLast

/-- `pre` is a prefix of `l`. -/
def prefixChars : List Char → List Char → Bool
  | [], _ => true
  | _ :: _, [] => false
  | a :: as, b :: bs => a = b && prefixChars as bs

/-- `a` is an ancestor-or-self of `p` (the empty root is an ancestor of
every path). -/
def isPathPrefix (a p : String) : Bool :=
  a = "" || a = p || prefixChars (a ++ ".").data p.data

/-- A path is instantiated when some rule path passes through it. -/
def instantiated (rulePaths : List String) (q : String) : Bool :=
  rulePaths.any fun rp => isPathPrefix q rp

/-- The implied values that materialize: SD pattern entries whose parent
path is instantiated by some rule path. -/
def impliedValues (sd : List (String × String)) (rulePaths : List String) :
    List (String × String) :=
  sd.filter fun e => instantiated rulePaths (parentOf e.1)

/-- Set one concrete path on the flat instance, overwriting an existing
entry. -/
def setProp (inst : List (String × String)) (p v : String) :
    List (String × String) :=
  if inst.any fun e => e.1 = p then
    inst.map fun e => if e.1 = p then (p, v) else e
  else inst ++ [(p, v)]

/-- Read one concrete path of the flat instance. -/
def getProp (inst : List (String × String)) (p : String) : Option String :=
  (inst.find? fun e => e.1 = p).map fun e => e.2

/-- Apply assignments in order, later ones overwriting earlier ones. -/
def applyAssignments (inst : List (String × String))
    (rules : List (String × String)) : List (String × String) :=
  rules.foldl (fun i r => setProp i r.1 r.2) inst

/-- The value the explicit rules leave at a path: the last assignment at
that exact path, if any. -/
def lastVal (rules : List (String × String)) (q : String) : Option String :=
  (rules.reverse.find? fun r => r.1 = q).map fun r => r.2

/-- `setAssignedValues` ordering (`src/unnamed/part_003` lines 116-118):
the rule-path list seeded with the empty root, the SD-implied values first,
then the explicit rules in source order. -/
def setAssignedValues (sd : List (String × String))
    (rules : List (String × String)) : List (String × String) :=
  let paths := "" :: rules.map fun r => r.1
  applyAssignments (applyAssignments [] (impliedValues sd paths)) rules

end Implied

namespace RefRes

/-!
Modelled from the spec: `replaceReferences` (`src/fhirtypes/common`, outside
the provided sources; applied at `src/unnamed/part_003` line 38).  Spec
section 4.3, step 4: "resolve `Reference(Name)` values against Tank
instances (emit `Type/id`, or `#id` when the referent is already a contained
resource in this instance)"; a name resolving to no Tank instance is
emitted unchanged (test at `src/unnamed/part_001` lines 1068-1077).
-/

/-- What reference resolution needs of a Tank instance: its name, final id
and resource type. -/
structure TankEntry where
  name : String
  id : String
  sdType : String
deriving DecidableEq

/-- Tank lookup by name or id (spec section 4.4). -/
def tankFish (tank : List TankEntry) (n : String) : Option TankEntry :=
  tank.find? fun t => t.name = n ∨ t.id = n

/-- The assignment rules of the instance being exported, as reference
resolution sees them. -/
inductive IRule where
  | assignRef (path : String) (refName : String)
  | containedInstance (name : String)
  | plain (path : String) (value : String)
deriving DecidableEq

/-- The ids of the instances assigned as contained resources of the
instance being exported. -/
def containedIds (tank : List TankEntry) (rules : List IRule) : List String :=
  rules.filterMap fun r =>
    match r with
    | IRule.containedInstance n => (tankFish tank n).map fun t => t.id
    | _ => none

/-- Resolve one `Reference(Name)` value. -/
def replaceReference (tank : List TankEntry) (cont : List String)
    (refName : String) : String :=
  match tankFish tank refName with
  | some t => if t.id ∈ cont then "#" ++ t.id else t.sdType ++ "/" ++ t.id
  | none => refName

/-- Resolve the reference values of all rules of one instance. -/
def resolveRefRules (tank : List TankEntry) (rules : List IRule) : List IRule :=
  rules.map fun r =>
    match r with
    | IRule.assignRef p n =>
      IRule.assignRef p (replaceReference tank (containedIds tank rules) n)
    | other => other

end RefRes

namespace Importer

/-!
The FSH importer (`FSHImporter` in `src/unnamed/part_002`): the single-use
guard of `visitDoc` (lines 124-144) over a document model covering aliases,
profiles and extensions (the entity kinds the provided importer visits).
-/

inductive Entity where
  | aliasDef (name url : String)
  | profileDef (name : String) (parent : Option String)
  | extensionDef (name : String) (parent : Option String)
deriving DecidableEq

structure FSHDocument where
  file : String
  aliases : List (String × String) := []
  profiles : List (String × Option String) := []
  extensions : List (String × Option String) := []
deriving DecidableEq

structure ImporterState where
  used : Bool
  doc : FSHDocument
deriving DecidableEq

inductive ImpMsg where
  | importerReuse
  | unsupportedRule
deriving DecidableEq

structure ImpLogEntry where
  level : Exporter.LogLevel
  msg : ImpMsg
deriving DecidableEq

/-- A freshly constructed `FSHImporter` for a file. -/
def freshImporter (file : String) : ImporterState :=
  ⟨false, { file := file }⟩

/-- Insert-or-replace, the `Map.set` the importer uses for aliases. -/
def mapSet (m : List (String × String)) (k v : String) :
    List (String × String) :=
  if m.any fun e => e.1 = k then
    m.map fun e => if e.1 = k then (k, v) else e
  else m ++ [(k, v)]

/-- `aliasAwareValue` (`src/unnamed/part_002` lines 507-509). -/
def aliasAware (aliases : List (String × String)) (v : String) : String :=
  match aliases.find? fun e => e.1 = v with
  | some e => e.2
  | none => v

/-- The first pass of `visitDoc`: collect every alias of the document. -/
def collectAliases (doc : FSHDocument) (ents : List Entity) : FSHDocument :=
  ents.foldl
    (fun d e =>
      match e with
      | Entity.aliasDef n u => { d with aliases := mapSet d.aliases n u }
      | _ => d)
    doc

/-- The second pass of `visitDoc`: visit every entity (aliases are set
again, idempotently; profile and extension parents resolve through the
collected aliases). -/
def processEntities (doc : FSHDocument) (ents : List Entity) : FSHDocument :=
  ents.foldl
    (fun d e =>
      match e with
      | Entity.aliasDef n u => { d with aliases := mapSet d.aliases n u }
      | Entity.profileDef n p =>
        { d with profiles := d.profiles ++ [(n, p.map (aliasAware d.aliases))] }
      | Entity.extensionDef n p =>
        { d with extensions := d.extensions ++ [(n, p.map (aliasAware d.aliases))] })
    doc

/-- `FSHImporter.visitDoc` (`src/unnamed/part_002` lines 124-144): a used
importer logs an error and returns nothing; otherwise both passes run and
the importer is marked used. -/
def visitDoc (st : ImporterState) (ents : List Entity) :
    Option FSHDocument × ImporterState × List ImpLogEntry :=
  if st.used then
    (none, st, [⟨Exporter.LogLevel.error, ImpMsg.importerReuse⟩])
  else
    let doc1 := processEntities (collectAliases st.doc ents) ents
    (some doc1, ⟨true, doc1⟩, [])

end Importer

namespace Multiline

/-!
`FSHImporter.extractMultilineString` (`src/unnamed/part_002` lines
516-548), translated character for character:

* strip the enclosing `\"\"\"` and a leading newline when the character
  right after the opening quotes is a newline;
* split into lines; drop the last line when it is whitespace-only;
* `minSpaces` := the smallest positive index-of-first-non-space over the
  lines (a line whose first character is non-space contributes nothing);
* from every line of length at least `minSpaces` drop its first
  `minSpaces` characters; shorter lines are kept whole.
-/

/-- A whitespace character as the importer's `\s`-based searches see it
within a line (newlines cannot occur inside a split line). -/
def isSpaceChar (c : Char) : Bool :=
  c = ' ' || c = '\t' || c = '\r'

/-- `line.search(/\S|$/)`: the index of the first non-whitespace character,
or the length of the line. -/
def firstNonSpace (l : List Char) : Nat :=
  (l.takeWhile isSpaceChar).length

/-- `line.search(/\S/) === -1`: the line is whitespace-only. -/
def allWhitespace (l : List Char) : Bool :=
  l.all isSpaceChar

/-- `String.prototype.split('\n')`. -/
def splitLines : List Char → List (List Char)
  | [] => [[]]
  | c :: rest =>
    if c = '\n' then [] :: splitLines rest
    else
      match splitLines rest with
      | l :: ls => (c :: l) :: ls
      | [] => [[c]]

/-- Drop the last line when it is whitespace-only (`lines.pop()`). -/
def dropTrailingBlank (lines : List (List Char)) : List (List Char) :=
  match lines.getLast? with
  | some l => if allWhitespace l then lines.dropLast else lines
  | none => lines

/-- The `minSpaces` fold (`src/unnamed/part_002` lines 538-544). -/
def minSpaces (lines : List (List Char)) : Nat :=
  lines.foldl
    (fun acc l =>
      if firstNonSpace l > 0 ∧ (acc = 0 ∨ firstNonSpace l < acc)
      then firstNonSpace l else acc)
    0

/-- `l.length >= minSpaces ? l.slice(minSpaces) : l`. -/
def stripLine (m : Nat) (l : List Char) : List Char :=
  if m ≤ l.length then l.drop m else l

/-- `lines.join('\n')`. -/
def joinLines (lines : List (List Char)) : List Char :=
  List.intercalate ['\n'] lines

/-- The line-processing stage: drop a whitespace-only trailing line, then
strip `minSpaces` leading characters from every long-enough line. -/
def processLines (lines : List (List Char)) : List (List Char) :=
  let ls := dropTrailingBlank lines
  ls.map (stripLine (minSpaces ls))

/-- `mlstr.slice(mlstr[3] === '\n' ? 4 : 3, -3)`. -/
def mlBody (l : List Char) : List Char :=
  (l.take (l.length - 3)).drop (if l.get? 3 = some '\n' then 4 else 3)

def extractMLChars (l : List Char) : List Char :=
  joinLines (processLines (splitLines (mlBody l)))

/-- `FSHImporter.extractMultilineString` on the full lexeme, quotes
included. -/
def extractMultilineString (s : String) : String :=
  ⟨extractMLChars s.data⟩

/-- The triple-quoted lexeme around a content character list. -/
def mkMl (content : List Char) : List Char :=
  '"' :: '"' :: '"' :: (content ++ ['"', '"', '"'])

end Multiline

namespace SDExp

/-!
Modelled from the spec: the StructureDefinition (Extension) exporter loop
(`ExtensionExporter.export`, not under `src/`; only its test file
`src/test/export/ExtensionExporter.test.ts` is).  Spec sections 4.2 and 5:
each entity resolves its parent, a miss fails that entity with
`ParentNotDefined`; "Fatal errors within one entity do not abort the
compilation; they are logged, that entity is skipped, and subsequent
entities are still attempted."
-/

structure FshExtension where
  name : String
  parent : String
  sourceInfo : Nat
deriving DecidableEq

/-- The produced StructureDefinition artifact, reduced to what the loop
observes. -/
structure SDOut where
  name : String
  baseDefinition : String
deriving DecidableEq

inductive SDMsg where
  | parentNotDefined (name parent : String)
deriving DecidableEq

structure SDLogEntry where
  level : Exporter.LogLevel
  msg : SDMsg
  span : Option Nat
deriving DecidableEq

/-- Export a single extension: resolve the parent through the fisher, fail
with `ParentNotDefined` when it is missing. -/
def exportExtension (resolve : String → Option String) (e : FshExtension) :
    Except (SDMsg × Nat) SDOut :=
  match resolve e.parent with
  | some url => Except.ok ⟨e.name, url⟩
  | none => Except.error (SDMsg.parentNotDefined e.name e.parent, e.sourceInfo)

/-- The export loop: a failing entity is logged with its span and skipped;
the rest are still attempted. -/
def exportAllExtensions (resolve : String → Option String)
    (exts : List FshExtension) : List SDOut × List SDLogEntry :=
  exts.foldl
    (fun acc e =>
      match exportExtension resolve e with
      | Except.ok sd => (acc.1 ++ [sd], acc.2)
      | Except.error (m, sp) =>
        (acc.1, acc.2 ++ [⟨Exporter.LogLevel.error, m, some sp⟩]))
    ([], [])

end SDExp

namespace IgIni

/-!
Modelled from the spec: `IGExporter.addIgIni` (the IG Config Emitter is not
under `src/`; only its test file `src/unnamed/part_000` is).  Spec section
4.4 lists the behaviors with a template and/or an on-disk `ig.ini`; the
test at `src/unnamed/part_000` lines 34-42 fixes the remaining case: with
no template and no on-disk file, nothing is written and nothing is logged.
-/

structure IniEntry where
  key : String
  value : String
deriving DecidableEq

inductive Banner where
  | generatedFromTemplate
  | copiedFromFile
  | mergedWithDefaults
deriving DecidableEq

structure OutFile where
  banner : Banner
  entries : List IniEntry
deriving DecidableEq

inductive IgMsg where
  | generatedIgIni
  | copiedIgIni
  | mergedIgIni
  | templateOverridesIgIni
  | missingIgProperty
  | missingTemplateProperty
  | deprecatedProperties (keys : List String)
deriving DecidableEq

structure IgLogEntry where
  level : Exporter.LogLevel
  msg : IgMsg
deriving DecidableEq

def deprecatedKeys : List String :=
  ["copyrightyear", "license", "version", "ballotstatus", "fhirspec",
    "excludexml", "excludejson", "excludettl", "excludeMaps"]

def hasKey (ini : List IniEntry) (k : String) : Bool :=
  ini.any fun e => e.key = k

/-- The generated file contents (`ig = input/ImplementationGuide-<id>.json`
and the template line). -/
def generatedEntries (template canonicalId : String) : List IniEntry :=
  [⟨"ig", "input/ImplementationGuide-" ++ canonicalId ++ ".json"⟩,
    ⟨"template", template⟩]

/-- `IGExporter.addIgIni`: the four spec behaviors plus the do-nothing case
fixed by the test. -/
def addIgIni (template : Option String) (canonicalId : String)
    (onDisk : Option (List IniEntry)) : Option OutFile × List IgLogEntry :=
  match template, onDisk with
  | none, none => (none, [])
  | some t, none =>
    (some ⟨Banner.generatedFromTemplate, generatedEntries t canonicalId⟩,
      [⟨Exporter.LogLevel.info, IgMsg.generatedIgIni⟩])
  | some t, some _ =>
    (some ⟨Banner.generatedFromTemplate, generatedEntries t canonicalId⟩,
      [⟨Exporter.LogLevel.warn, IgMsg.templateOverridesIgIni⟩,
        ⟨Exporter.LogLevel.info, IgMsg.generatedIgIni⟩])
  | none, some ini =>
    if hasKey ini "ig" ∧ hasKey ini "template" then
      let deps := deprecatedKeys.filter (hasKey ini)
      (some ⟨Banner.copiedFromFile, ini⟩,
        (if deps.isEmpty then []
         else [⟨Exporter.LogLevel.warn, IgMsg.deprecatedProperties deps⟩]) ++
          [⟨Exporter.LogLevel.info, IgMsg.copiedIgIni⟩])
    else
      let merged := ini ++
        (if hasKey ini "ig" then [] else [⟨"ig", "input/ImplementationGuide-" ++ canonicalId ++ ".json"⟩]) ++
        (if hasKey ini "template" then [] else [⟨"template", "fhir.base.template"⟩])
      (some ⟨Banner.mergedWithDefaults, merged⟩,
        (if hasKey ini "ig" then []
         else [⟨Exporter.LogLevel.warn, IgMsg.missingIgProperty⟩]) ++
          (if hasKey ini "template" then []
           else [⟨Exporter.LogLevel.warn, IgMsg.missingTemplateProperty⟩]) ++
          [⟨Exporter.LogLevel.info, IgMsg.mergedIgIni⟩])

end IgIni

/-! ## Theorems -/

namespace Implied

lemma getProp_nil (q : String) : getProp [] q = none := rfl

lemma or_some_left (a : String) (x : Option String) : (some a).or x = some a := rfl

lemma or_none_left (x : Option String) : (Option.none).or x = x := rfl

lemma getProp_cons (e : String × String) (rest : List (String × String)) (q : String) :
    getProp (e :: rest) q = if e.1 = q then some e.2 else getProp rest q := by
  unfold getProp
  rw [List.find?_cons]
  by_cases h : e.1 = q <;> simp [h]

lemma getProp_map_replace (p v q : String) (h : ¬p = q)
    (inst : List (String × String)) :
    getProp (inst.map fun e => if e.1 = p then (p, v) else e) q = getProp inst q := by
  induction inst with
  | nil => rfl
  | cons e rest ih =>
    simp only [List.map_cons]
    by_cases he : e.1 = p
    · rw [if_pos he, getProp_cons, getProp_cons, if_neg h,
        if_neg (fun hq => h (he ▸ hq)), ih]
    · rw [if_neg he, getProp_cons, getProp_cons]
      by_cases hq : e.1 = q
      · rw [if_pos hq, if_pos hq]
      · rw [if_neg hq, if_neg hq, ih]

lemma getProp_map_replace_self (p v : String) (inst : List (String × String))
    (h : inst.any (fun e => e.1 = p) = true) :
    getProp (inst.map fun e => if e.1 = p then (p, v) else e) p = some v := by
  induction inst with
  | nil => simp at h
  | cons e rest ih =>
    simp only [List.map_cons]
    by_cases he : e.1 = p
    · rw [if_pos he, getProp_cons, if_pos rfl]
    · rw [if_neg he, getProp_cons, if_neg he]
      simp only [List.any_cons, Bool.or_eq_true, decide_eq_true_eq] at h
      rcases h with h | h
      · exact absurd h he
      · exact ih h

lemma getProp_append_new (p v q : String) (inst : List (String × String)) :
    getProp (inst ++ [(p, v)]) q =
      if p = q then (getProp inst q).or (some v) else getProp inst q := by
  induction inst with
  | nil =>
    rw [List.nil_append, getProp_cons, getProp_nil]
    by_cases h : p = q <;> simp [h, or_none_left]
  | cons e rest ih =>
    rw [List.cons_append, getProp_cons, getProp_cons]
    by_cases h : p = q
    · rw [if_pos h] at ih ⊢
      by_cases hq : e.1 = q
      · rw [if_pos hq, if_pos hq, or_some_left]
      · rw [if_neg hq, if_neg hq, ih]
    · rw [if_neg h] at ih ⊢
      by_cases hq : e.1 = q
      · rw [if_pos hq, if_pos hq]
      · rw [if_neg hq, if_neg hq, ih]

lemma getProp_eq_none_of_not_any (inst : List (String × String)) (q : String)
    (h : ¬inst.any (fun e => e.1 = q) = true) :
    getProp inst q = none := by
  unfold getProp
  rw [List.find?_eq_none.2]
  · rfl
  · intro e he hq
    exact h (List.any_eq_true.2 ⟨e, he, by simpa using hq⟩)

lemma getProp_setProp (inst : List (String × String)) (p v q : String) :
    getProp (setProp inst p v) q = if p = q then some v else getProp inst q := by
  unfold setProp
  by_cases hany : inst.any (fun e => e.1 = p) = true
  · rw [if_pos hany]
    by_cases h : p = q
    · subst h
      rw [if_pos rfl, getProp_map_replace_self p v inst hany]
    · rw [if_neg h, getProp_map_replace p v q h inst]
  · rw [if_neg hany, getProp_append_new]
    by_cases h : p = q
    · subst h
      rw [if_pos rfl, if_pos rfl, getProp_eq_none_of_not_any inst p hany, or_none_left]
    · rw [if_neg h, if_neg h]

lemma lastVal_nil (q : String) : lastVal [] q = none := rfl

lemma lastVal_cons (r : String × String) (rs : List (String × String)) (q : String) :
    lastVal (r :: rs) q =
      (lastVal rs q).or (if r.1 = q then some r.2 else none) := by
  unfold lastVal
  rw [List.reverse_cons, List.find?_append]
  by_cases h : r.1 = q
  · cases hf : rs.reverse.find? fun r => r.1 = q <;>
      simp [List.find?_cons, h, hf, Option.or]
  · cases hf : rs.reverse.find? fun r => r.1 = q <;>
      simp [List.find?_cons, h, hf, Option.or]

lemma getProp_applyAssignments (rules : List (String × String)) :
    ∀ (inst : List (String × String)) (q : String),
      getProp (applyAssignments inst rules) q =
        ((lastVal rules q).or (getProp inst q) : Option String) := by
  induction rules with
  | nil => intro inst q; rw [lastVal_nil, or_none_left]; rfl
  | cons r rs ih =>
    intro inst q
    have h0 : applyAssignments inst (r :: rs) = applyAssignments (setProp inst r.1 r.2) rs := rfl
    rw [h0, ih, lastVal_cons, getProp_setProp]
    by_cases h : r.1 = q
    · rw [if_pos h, if_pos h]
      cases lastVal rs q <;> rfl
    · rw [if_neg h, if_neg h]
      cases lastVal rs q <;> rfl

lemma find?_filter_key (P : String × String → Bool) (q : String) (b : Bool)
    (hb : ∀ e : String × String, e.1 = q → P e = b) :
    ∀ l : List (String × String),
      (l.filter P).find? (fun r => r.1 = q) =
        if b then l.find? (fun r => r.1 = q) else none := by
  intro l
  induction l with
  | nil => cases b <;> simp
  | cons e rest ih =>
    rw [List.filter_cons]
    by_cases he : e.1 = q
    · have hPe : P e = b := hb e he
      cases b
      · rw [hPe, if_neg (by simp)] at *
        simpa using ih
      · rw [hPe, if_pos rfl] at *
        rw [List.find?_cons_of_pos _ (by simp [he]), List.find?_cons_of_pos _ (by simp [he])]
        simp
    · by_cases hPe : P e = true
      · rw [if_pos hPe, List.find?_cons_of_neg _ (by simp [he])]
        cases b
        · rw [if_neg (by simp)] at *
          exact ih
        · rw [if_pos rfl] at *
          rw [List.find?_cons_of_neg _ (by simp [he])]
          exact ih
      · rw [if_neg (by simpa using hPe)]
        cases b
        · rw [if_neg (by simp)] at *
          exact ih
        · rw [if_pos rfl] at *
          rw [List.find?_cons_of_neg _ (by simp [he])]
          exact ih

lemma lastVal_filter (P : String × String → Bool) (q : String) (b : Bool)
    (hb : ∀ e : String × String, e.1 = q → P e = b)
    (l : List (String × String)) :
    lastVal (l.filter P) q = if b then lastVal l q else none := by
  unfold lastVal
  rw [← List.filter_reverse, find?_filter_key P q b hb l.reverse]
  cases b <;> simp

end Implied

open Implied in
/-- **C3**: In `setAssignedValues`, SD-implied values are applied before the
instance's explicit assignment rules; explicit rules are applied in source
order with later assignments overwriting earlier ones at the same concrete
path (so an implied value never overwrites an explicitly assigned one); and
an implied value materializes exactly when its parent path is instantiated
by some rule path: at a path with no explicit rule the result carries the
SD-implied value if the parent is reached, and nothing otherwise. -/
theorem c3_implied_value_ordering (sd rules : List (String × String)) (q : String) :
    (∀ v, lastVal rules q = some v →
      getProp (Implied.setAssignedValues sd rules) q = some v) ∧
    (lastVal rules q = none →
      getProp (Implied.setAssignedValues sd rules) q =
        if instantiated ("" :: rules.map fun r => r.1) (parentOf q)
        then lastVal sd q else none) := by
  have hkey : getProp (Implied.setAssignedValues sd rules) q =
      (lastVal rules q).or
        ((if instantiated ("" :: rules.map fun r => r.1) (parentOf q)
          then lastVal sd q else none).or none) := by
    unfold Implied.setAssignedValues impliedValues
    rw [getProp_applyAssignments, getProp_applyAssignments, getProp_nil]
    rw [lastVal_filter _ q (instantiated ("" :: rules.map fun r => r.1) (parentOf q))
      (fun e he => by rw [he])]
  constructor
  · intro v hv
    rw [hkey, hv, or_some_left]
  · intro hv
    rw [hkey, hv, or_none_left]
    cases h : instantiated ("" :: rules.map fun r => r.1) (parentOf q)
    · rfl
    · cases lastVal sd q <;> rfl

/-- Witness for C3 at the test scenarios of `src/unnamed/part_001` lines
600-641: the SD pattern at `communication.preferred` materializes when a
rule instantiates `communication`, does not materialize when no rule does,
and a later rule at the same path overwrites an earlier one regardless of
the SD pattern. -/
theorem c3_implied_value_ordering_witness :
    Implied.getProp
        (Implied.setAssignedValues [("communication.preferred", "true")]
          [("communication.language", "foo")]) "communication.preferred" =
      some "true" ∧
    Implied.getProp
        (Implied.setAssignedValues [("communication.preferred", "true")] [])
        "communication.preferred" = none ∧
    Implied.getProp
        (Implied.setAssignedValues [("gender", "implied")]
          [("gender", "first"), ("gender", "second")]) "gender" =
      some "second" := by
  refine ⟨?_, ?_, ?_⟩
  · rw [(c3_implied_value_ordering [("communication.preferred", "true")]
      [("communication.language", "foo")] "communication.preferred").2 (by decide)]
    decide
  · rw [(c3_implied_value_ordering [("communication.preferred", "true")] []
      "communication.preferred").2 (by decide)]
    decide
  · exact (c3_implied_value_ordering [("gender", "implied")]
      [("gender", "first"), ("gender", "second")] "gender").1 "second" (by decide)


/-- **C10**: When the configuration supplies no template and no `ig.ini`
file exists in the ig-data input directory, `addIgIni` writes no `ig.ini`
output file and emits no log messages of any level. -/
theorem c10_add_ig_ini_nothing (canonicalId : String) :
    IgIni.addIgIni none canonicalId none = (none, []) := rfl

/-- **C6**: The importer is single-use: after a first `visitDoc` call on any
input, a second call emits exactly the reuse error diagnostic, returns an
empty result, and leaves the importer state — in particular the previously
produced document — unchanged. -/
theorem c6_importer_single_use (file : String)
    (ents ents2 : List Importer.Entity) :
    Importer.visitDoc (Importer.visitDoc (Importer.freshImporter file) ents).2.1 ents2 =
      (none, (Importer.visitDoc (Importer.freshImporter file) ents).2.1,
        [⟨Exporter.LogLevel.error, Importer.ImpMsg.importerReuse⟩]) ∧
    (Importer.visitDoc (Importer.freshImporter file) ents).1 =
      some (Importer.visitDoc (Importer.freshImporter file) ents).2.1.doc := by
  constructor
  · simp [Importer.visitDoc, Importer.freshImporter]
  · simp [Importer.visitDoc, Importer.freshImporter]

/-- **C4**: An assignment rule whose value is `Reference(Name)` resolves,
when `Name` names a Tank instance, to `Type/id` of the referent; to `#id`
when the referent is assigned as a contained resource of the instance being
exported; and stays unchanged when `Name` resolves to no Tank instance. -/
theorem c4_reference_resolution (tank : List RefRes.TankEntry)
    (rules : List RefRes.IRule) (p n : String)
    (hmem : RefRes.IRule.assignRef p n ∈ rules) :
    (∀ t, RefRes.tankFish tank n = some t →
      (t.id ∈ RefRes.containedIds tank rules →
        RefRes.IRule.assignRef p ("#" ++ t.id) ∈ RefRes.resolveRefRules tank rules) ∧
      (t.id ∉ RefRes.containedIds tank rules →
        RefRes.IRule.assignRef p (t.sdType ++ "/" ++ t.id) ∈
          RefRes.resolveRefRules tank rules)) ∧
    (RefRes.tankFish tank n = none →
      RefRes.IRule.assignRef p n ∈ RefRes.resolveRefRules tank rules) := by
  refine ⟨fun t ht => ⟨fun hc => ?_, fun hc => ?_⟩, fun hn => ?_⟩ <;>
    [skip; skip; skip] <;>
    · unfold RefRes.resolveRefRules
      refine List.mem_map.mpr ⟨RefRes.IRule.assignRef p n, hmem, ?_⟩
      simp [RefRes.replaceReference, *]

/-- Witness for C4 at the test scenario of `src/unnamed/part_001` lines
1031-1077: a contained referent resolves to `#org-id`, a plain referent to
`Organization/org-id`, an unresolvable name is kept verbatim. -/
theorem c4_reference_resolution_witness :
    RefRes.IRule.assignRef "managingOrganization" "#org-id" ∈
      RefRes.resolveRefRules [⟨"TestOrganization", "org-id", "Organization"⟩]
        [RefRes.IRule.containedInstance "TestOrganization",
          RefRes.IRule.assignRef "managingOrganization" "TestOrganization"] ∧
    RefRes.IRule.assignRef "managingOrganization" "Organization/org-id" ∈
      RefRes.resolveRefRules [⟨"TestOrganization", "org-id", "Organization"⟩]
        [RefRes.IRule.assignRef "managingOrganization" "TestOrganization"] ∧
    RefRes.IRule.assignRef "managingOrganization" "http://example.org" ∈
      RefRes.resolveRefRules [] [RefRes.IRule.assignRef "managingOrganization" "http://example.org"] := by
  refine ⟨?_, ?_, ?_⟩
  · exact ((c4_reference_resolution _ _ "managingOrganization" "TestOrganization"
      (by decide)).1 ⟨"TestOrganization", "org-id", "Organization"⟩ (by decide)).1 (by decide)
  · exact ((c4_reference_resolution _ _ "managingOrganization" "TestOrganization"
      (by decide)).1 ⟨"TestOrganization", "org-id", "Organization"⟩ (by decide)).2 (by decide)
  · exact (c4_reference_resolution [] _ "managingOrganization" "http://example.org"
      (by decide)).2 (by decide)

namespace Multiline

lemma firstNonSpace_le_length (l : List Char) : firstNonSpace l ≤ l.length :=
  List.Sublist.length_le (List.takeWhile_sublist _)

/-- The `minSpaces` fold keeps an accumulator of `k` once the indents of the
remaining lines are all zero or at least `k`. -/
lemma minSpaces_foldl_absorb (k : Nat) (hk : 0 < k) :
    ∀ lines : List (List Char),
      (∀ l ∈ lines, firstNonSpace l = 0 ∨ k ≤ firstNonSpace l) →
      lines.foldl
        (fun acc l =>
          if firstNonSpace l > 0 ∧ (acc = 0 ∨ firstNonSpace l < acc)
          then firstNonSpace l else acc) k = k := by
  intro lines
  induction lines with
  | nil => intro _; rfl
  | cons l rest ih =>
    intro hall
    simp only [List.foldl_cons]
    have hstep :
        (if firstNonSpace l > 0 ∧ (k = 0 ∨ firstNonSpace l < k)
          then firstNonSpace l else k) = k := by
      rcases hall l (List.mem_cons_self l rest) with h0 | hge
      · rw [if_neg]; simp [h0]
      · rw [if_neg]; rintro ⟨-, h | h⟩ <;> omega
    rw [hstep]
    exact ih fun m hm => hall m (List.mem_cons_of_mem _ hm)

/-- The `minSpaces` fold computes exactly `k` for a block whose lines all
have indent zero or at least `k`, at least one of them exactly `k`. -/
lemma minSpaces_foldl_eq (k : Nat) (hk : 0 < k) :
    ∀ (lines : List (List Char)) (acc : Nat),
      acc = 0 ∨ k ≤ acc →
      (∀ l ∈ lines, firstNonSpace l = 0 ∨ k ≤ firstNonSpace l) →
      (∃ l ∈ lines, firstNonSpace l = k) →
      lines.foldl
        (fun acc l =>
          if firstNonSpace l > 0 ∧ (acc = 0 ∨ firstNonSpace l < acc)
          then firstNonSpace l else acc) acc = k := by
  intro lines
  induction lines with
  | nil =>
    intro acc _ _ hex
    simp at hex
  | cons l rest ih =>
    intro acc hacc hall hex
    simp only [List.foldl_cons]
    by_cases hl : firstNonSpace l = k
    · have hstep :
          (if firstNonSpace l > 0 ∧ (acc = 0 ∨ firstNonSpace l < acc)
            then firstNonSpace l else acc) = k := by
        rw [hl]
        rcases hacc with h0 | hge
        · rw [if_pos ⟨hk, Or.inl h0⟩]
        · rcases Nat.lt_or_ge k acc with hlt | hge2
          · rw [if_pos ⟨hk, Or.inr hlt⟩]
          · rw [if_neg]
            · omega
            · rintro ⟨-, h | h⟩ <;> omega
      rw [hstep]
      exact minSpaces_foldl_absorb k hk rest
        fun m hm => hall m (List.mem_cons_of_mem _ hm)
    · have hex' : ∃ m ∈ rest, firstNonSpace m = k := by
        rcases hex with ⟨m, hm, hmk⟩
        rcases List.mem_cons.1 hm with rfl | hm'
        · exact absurd hmk hl
        · exact ⟨m, hm', hmk⟩
      refine ih _ ?_ (fun m hm => hall m (List.mem_cons_of_mem _ hm)) hex'
      rcases hall l (List.mem_cons_self l rest) with h0 | hge
      · rw [if_neg (by simp [h0])]
        exact hacc
      · by_cases hc : firstNonSpace l > 0 ∧ (acc = 0 ∨ firstNonSpace l < acc)
        · rw [if_pos hc]
          exact Or.inr hge
        · rw [if_neg hc]
          exact hacc

lemma minSpaces_eq (lines : List (List Char)) (k : Nat) (hk : 0 < k)
    (hall : ∀ l ∈ lines, l = [] ∨ k ≤ firstNonSpace l)
    (hex : ∃ l ∈ lines, firstNonSpace l = k) :
    minSpaces lines = k := by
  unfold minSpaces
  refine minSpaces_foldl_eq k hk lines 0 (Or.inl rfl) ?_ hex
  intro l hl
  rcases hall l hl with rfl | hge
  · exact Or.inl rfl
  · exact Or.inr hge

end Multiline

namespace Multiline

lemma take_mkMl (content : List Char) :
    (mkMl content).take ((mkMl content).length - 3) = '"' :: '"' :: '"' :: content := by
  have hlen : (mkMl content).length - 3 = content.length + 3 := by
    simp [mkMl]
  rw [hlen]
  show ('"' :: '"' :: '"' :: (content ++ ['"', '"', '"'])).take (content.length + 3) = _
  rw [show content.length + 3 = (content.length + 2) + 1 from rfl, List.take_succ_cons,
    show content.length + 2 = (content.length + 1) + 1 from rfl, List.take_succ_cons,
    List.take_succ_cons, List.take_left]

lemma get?_three_mkMl (content : List Char) :
    (mkMl content).get? 3 = (content ++ ['"', '"', '"']).head? := by
  show ('"' :: '"' :: '"' :: (content ++ ['"', '"', '"'])).get? 3 = _
  rw [List.get?_cons_succ, List.get?_cons_succ, List.get?_cons_succ, List.get?_eq_getElem?]
  cases content ++ ['"', '"', '"'] <;> simp

lemma mlBody_mkMl_newline (content : List Char) :
    mlBody (mkMl ('\n' :: content)) = content := by
  unfold mlBody
  rw [take_mkMl, get?_three_mkMl]
  rw [if_pos (by rfl)]
  rfl

lemma mlBody_mkMl (content : List Char) (h : content.head? ≠ some '\n') :
    mlBody (mkMl content) = content := by
  unfold mlBody
  rw [take_mkMl, get?_three_mkMl]
  rw [if_neg]
  · rfl
  · cases content with
    | nil => simp
    | cons c rest =>
      simp only [List.cons_append, List.head?_cons]
      simp only [List.head?_cons] at h
      exact h

lemma processLines_eq (lines : List (List Char)) :
    processLines lines =
      (dropTrailingBlank lines).map (stripLine (minSpaces (dropTrailingBlank lines))) := rfl

lemma dropTrailingBlank_concat (lines : List (List Char)) (l : List Char)
    (h : allWhitespace l = true) : dropTrailingBlank (lines ++ [l]) = lines := by
  simp [dropTrailingBlank, List.getLast?_concat, h]

lemma stripLine_eq_drop (k : Nat) (hk : 0 < k) (l : List Char)
    (h : l = [] ∨ k ≤ firstNonSpace l) : stripLine k l = l.drop k := by
  rcases h with rfl | hge
  · unfold stripLine
    rw [if_neg (by simp; omega)]
    simp
  · unfold stripLine
    rw [if_pos (le_trans hge (firstNonSpace_le_length l))]

end Multiline

open Multiline in
/-- **C7 (amended)**: For a triple-quoted multi-line string, the importer
discards the first line when it is empty and a whitespace-only trailing
line; it then computes `m` as the smallest positive leading-whitespace
count among the remaining lines — a line whose first character is not
whitespace contributes nothing to `m` — and drops the first `m` characters
from every line whose length is at least `m`, so a uniformly indented block
(every line empty or indented at least `m`, with `m` attained) loses
exactly its common indent, while a line with less indentation than `m` is
truncated whenever its length is at least `m` and is kept whole only when
it is shorter than `m`. -/
theorem c7_amended_multiline_extraction :
    (∀ content : List Char, content.head? ≠ some '\n' →
      extractMLChars (mkMl ('\n' :: content)) = extractMLChars (mkMl content)) ∧
    (∀ (lines : List (List Char)) (l : List Char), allWhitespace l = true →
      processLines (lines ++ [l]) = lines.map (stripLine (minSpaces lines))) ∧
    (∀ (lines : List (List Char)) (k : Nat), 0 < k →
      (∀ l ∈ lines, l = [] ∨ k ≤ firstNonSpace l) →
      (∃ l ∈ lines, firstNonSpace l = k) →
      dropTrailingBlank lines = lines →
      processLines lines = lines.map (List.drop k)) ∧
    (∀ (lines : List (List Char)) (i : Nat) (l : List Char),
      (dropTrailingBlank lines).get? i = some l →
      (processLines lines).get? i =
        some (if minSpaces (dropTrailingBlank lines) ≤ l.length
              then l.drop (minSpaces (dropTrailingBlank lines)) else l)) := by
  refine ⟨?_, ?_, ?_, ?_⟩
  · intro content h
    unfold extractMLChars
    rw [mlBody_mkMl_newline, mlBody_mkMl content h]
  · intro lines l h
    rw [processLines_eq, dropTrailingBlank_concat lines l h]
  · intro lines k hk hall hex hnodrop
    rw [processLines_eq, hnodrop, minSpaces_eq lines k hk hall hex]
    exact List.map_congr_left fun l hl => stripLine_eq_drop k hk l (hall l hl)
  · intro lines i l h
    rw [processLines_eq]
    rw [List.get?_eq_getElem?] at h ⊢
    rw [List.getElem?_map, h]
    rfl

open Multiline in
/-- Witness for the amended C7 at concrete inputs: the blank first line and
the whitespace trailing line are discarded, a uniformly indented two-line
block loses its common indent of two, and a zero-indent line of length at
least `m` is truncated by `m`. -/
theorem c7_amended_multiline_extraction_witness :
    extractMLChars (mkMl ('\n' :: ['a', 'b'])) = extractMLChars (mkMl ['a', 'b']) ∧
    processLines [[' ', ' ', 'a'], [' ', ' ']] =
      [[' ', ' ', 'a']].map (stripLine (minSpaces [[' ', ' ', 'a']])) ∧
    processLines [[' ', ' ', 'a'], [' ', ' ', ' ', 'b']] =
      [[' ', ' ', 'a'], [' ', ' ', ' ', 'b']].map (List.drop 2) ∧
    (processLines [['a', 'b', 'c', 'd', 'e', 'f'], [' ', ' ', ' ', ' ', 'x']]).get? 0 =
      some (if minSpaces (dropTrailingBlank
              [['a', 'b', 'c', 'd', 'e', 'f'], [' ', ' ', ' ', ' ', 'x']]) ≤
              ['a', 'b', 'c', 'd', 'e', 'f'].length
            then ['a', 'b', 'c', 'd', 'e', 'f'].drop
              (minSpaces (dropTrailingBlank
                [['a', 'b', 'c', 'd', 'e', 'f'], [' ', ' ', ' ', ' ', 'x']]))
            else ['a', 'b', 'c', 'd', 'e', 'f']) := by
  refine ⟨?_, ?_, ?_, ?_⟩
  · exact c7_amended_multiline_extraction.1 ['a', 'b'] (by decide)
  · exact c7_amended_multiline_extraction.2.1 [[' ', ' ', 'a']] [' ', ' ']
      (by decide)
  · exact c7_amended_multiline_extraction.2.2.1
      [[' ', ' ', 'a'], [' ', ' ', ' ', 'b']] 2 (by decide) (by decide)
      ⟨[' ', ' ', 'a'], by decide, by decide⟩ (by decide)
  · exact c7_amended_multiline_extraction.2.2.2
      [['a', 'b', 'c', 'd', 'e', 'f'], [' ', ' ', ' ', ' ', 'x']] 0
      ['a', 'b', 'c', 'd', 'e', 'f'] (by decide)

/-- **C7 (counterexample)**: the claim predicts that the leading common
indentation "shared by all remaining lines" is stripped and that "lines
with less indentation than others are not truncated".  On the input below
the two kept lines share no indentation (the first starts at column zero),
yet the importer strips four characters from it: the output is `ef\nx`,
not the unchanged `abcdef\n    x` the claim predicts. -/
theorem c7_counterexample_truncated_line :
    Multiline.extractMultilineString "\"\"\"abcdef\n    x\"\"\"" = "ef\nx" ∧
    ("ef\nx" : String) ≠ "abcdef\n    x" := by
  exact ⟨rfl, by decide⟩


namespace Exporter

/-- A duplicate-id diagnostic, by message kind. -/
def isDupEntry : LogEntry → Bool
  | ⟨_, Msg.duplicateInstanceId _ _, _⟩ => true
  | _ => false

lemma map_replace_eq_self (l : List InstanceDefinition) (n : String)
    (idef : InstanceDefinition) (h : containsName l n = false) :
    (l.map fun i => if i.metaName = n then idef else i) = l := by
  induction l with
  | nil => rfl
  | cons i rest ih =>
    simp only [containsName, List.any_cons, Bool.or_eq_false_iff] at h
    simp only [List.map_cons]
    rw [if_neg (by simpa using h.1), ih (by simpa [containsName] using h.2)]

lemma exportInstanceCore_one_assign (f : Fisher) (tank : List FshInstance)
    (recFn : Option (FshInstance → ExpState → ExpResult))
    (j : FHIRJson) (io n a v : String) (s : Nat) (u : Option String)
    (st : ExpState)
    (hg : containsName st.instances a = false)
    (hj : fishOrder f io fishKinds = some j) (hk : j.kind = "resource")
    (hv : validFhirId v = true) :
    exportInstanceCore f tank recFn ⟨n, a, io, u, none, none, [ARule.assign "id" v], s⟩ st =
      (Except.ok (some ⟨a, u, none, none, some j.type, some v, none,
          if j.derivation = some "constraint" then [j.url] else [], []⟩),
        ⟨st.instances ++
          [⟨a, u, none, none, some j.type, some v, none,
            if j.derivation = some "constraint" then [j.url] else [], []⟩],
          if hasDuplicate
              (st.instances ++
                [⟨a, u, none, none, some j.type, some v, none,
                  if j.derivation = some "constraint" then [j.url] else [], []⟩])
              ⟨a, u, none, none, some j.type, some v, none,
                if j.derivation = some "constraint" then [j.url] else [], []⟩
          then st.log ++ [⟨LogLevel.error, Msg.duplicateInstanceId (some j.type) (some v), some s⟩]
          else st.log⟩) := by
  have hn : normRule (ARule.assign "id" v) = ARule.assign "id" v := rfl
  unfold exportInstanceCore
  rw [if_neg (by simp [hg])]
  simp only [hj, hk, hn, List.map_cons, List.map_nil, initIdef, initWarnLog]
  simp only [resolveInstanceRules]
  simp only [finishInstance, initIdef, applyRules, List.foldl_cons, List.foldl_nil,
    applyRule, if_pos rfl, validateId, hv, if_pos rfl, replaceByName]
  simp only [List.map_append, List.map_cons, List.map_nil,
    map_replace_eq_self st.instances a _ hg, if_pos rfl]
  simp [hv, hk]
  generalize (if j.derivation = some "constraint" then [j.url] else ([] : List String)) = mp
  split <;> rfl

lemma hasDuplicate_single (idef : InstanceDefinition) :
    hasDuplicate [idef] idef = false := by
  simp [hasDuplicate]

end Exporter

open Exporter in
/-- **C1**: Two exported instances that share a resource type and an id are
both kept in the Package; when neither has usage `Inline` the exporter logs
exactly one duplicate-id error, attributed to the second instance's source
span; when either of them is inline, no duplicate-id error is logged. -/
theorem c1_duplicate_instance_id (f : Fisher) (tank : List FshInstance)
    (fuel : Nat) (j : FHIRJson) (io nA nB a b v : String) (sA sB : Nat)
    (uA uB : Option String) (st2 : ExpState)
    (hj : fishOrder f io fishKinds = some j) (hk : j.kind = "resource")
    (hv : validFhirId v = true) (hab : a ≠ b)
    (hst : st2 = (exportInstance f tank fuel
        ⟨nB, b, io, uB, none, none, [ARule.assign "id" v], sB⟩
        (exportInstance f tank fuel
          ⟨nA, a, io, uA, none, none, [ARule.assign "id" v], sA⟩ ⟨[], []⟩).2).2) :
    containsName st2.instances a = true ∧ containsName st2.instances b = true ∧
    (uA ≠ some "Inline" → uB ≠ some "Inline" →
      st2.log.filter isDupEntry =
        [⟨LogLevel.error, Msg.duplicateInstanceId (some j.type) (some v), some sB⟩]) ∧
    ((uA = some "Inline" ∨ uB = some "Inline") →
      st2.log.filter isDupEntry = []) := by
  have key : ∀ recFn recFn2, st2 =
      (exportInstanceCore f tank recFn2
        ⟨nB, b, io, uB, none, none, [ARule.assign "id" v], sB⟩
        (exportInstanceCore f tank recFn
          ⟨nA, a, io, uA, none, none, [ARule.assign "id" v], sA⟩ ⟨[], []⟩).2).2 →
      containsName st2.instances a = true ∧ containsName st2.instances b = true ∧
      (uA ≠ some "Inline" → uB ≠ some "Inline" →
        st2.log.filter isDupEntry =
          [⟨LogLevel.error, Msg.duplicateInstanceId (some j.type) (some v), some sB⟩]) ∧
      ((uA = some "Inline" ∨ uB = some "Inline") →
        st2.log.filter isDupEntry = []) := by
    intro recFn recFn2 hst2
    rw [exportInstanceCore_one_assign f tank recFn j io nA a v sA uA ⟨[], []⟩
      (by rfl) hj hk hv] at hst2
    simp only [hasDuplicate_single, List.nil_append, if_neg Bool.false_ne_true] at hst2
    rw [exportInstanceCore_one_assign f tank recFn2 j io nB b v sB uB
      ⟨[⟨a, uA, none, none, some j.type, some v, none,
        if j.derivation = some "constraint" then [j.url] else [], []⟩], []⟩
      (by simp [containsName, hab]) hj hk hv] at hst2
    subst hst2
    dsimp only
    refine ⟨by simp [containsName], by simp [containsName], ?_, ?_⟩
    · intro hA hB
      rw [if_pos]
      · simp [isDupEntry]
      · simp [hasDuplicate, hab, hA, hB]
    · intro h
      rw [if_neg]
      · simp [isDupEntry]
      · rcases h with h | h <;> simp [hasDuplicate, h]
  cases fuel with
  | zero => exact key none none hst
  | succ m => exact key _ _ hst

namespace Exporter

/-- A registry resolving `Patient` as a FHIR resource, as the test fixtures
do. -/
def demoPatientJson : FHIRJson :=
  ⟨"resource", "Patient", "http://example.org/Patient", some "specialization"⟩

def demoFisher : Fisher :=
  ⟨fun k n =>
    if k = FishKind.resource ∧ n = "Patient" then some demoPatientJson else none⟩

end Exporter

open Exporter in
/-- Witness for C1 at the duplicate-id test scenario
(`src/unnamed/part_001` lines 276-301): two non-inline Patient instances
with id `repeated-id` produce exactly one duplicate-id error, attributed to
the second span, and both stay in the package. -/
theorem c1_duplicate_instance_id_witness :
    ((exportInstance demoFisher [] 1
        ⟨"SecondExample", "SecondExample", "Patient", some "Example", none, none,
          [ARule.assign "id" "repeated-id"], 2⟩
        (exportInstance demoFisher [] 1
          ⟨"FirstExample", "FirstExample", "Patient", some "Example", none, none,
            [ARule.assign "id" "repeated-id"], 1⟩ ⟨[], []⟩).2).2).log.filter isDupEntry =
      [⟨LogLevel.error, Msg.duplicateInstanceId (some "Patient") (some "repeated-id"),
        some 2⟩] ∧
    containsName ((exportInstance demoFisher [] 1
        ⟨"SecondExample", "SecondExample", "Patient", some "Example", none, none,
          [ARule.assign "id" "repeated-id"], 2⟩
        (exportInstance demoFisher [] 1
          ⟨"FirstExample", "FirstExample", "Patient", some "Example", none, none,
            [ARule.assign "id" "repeated-id"], 1⟩ ⟨[], []⟩).2).2).instances
      "FirstExample" = true ∧
    containsName ((exportInstance demoFisher [] 1
        ⟨"SecondExample", "SecondExample", "Patient", some "Example", none, none,
          [ARule.assign "id" "repeated-id"], 2⟩
        (exportInstance demoFisher [] 1
          ⟨"FirstExample", "FirstExample", "Patient", some "Example", none, none,
            [ARule.assign "id" "repeated-id"], 1⟩ ⟨[], []⟩).2).2).instances
      "SecondExample" = true := by
  have h := c1_duplicate_instance_id demoFisher [] 1 demoPatientJson "Patient"
    "FirstExample" "SecondExample" "FirstExample" "SecondExample" "repeated-id"
    1 2 (some "Example") (some "Example") _ (by rfl) (by rfl) (by decide)
    (by decide) rfl
  exact ⟨h.2.2.1 (by decide) (by decide), h.1, h.2.1⟩

namespace Exporter

lemma applyRule_metaUsage (idef : InstanceDefinition) (r : ARule) :
    (applyRule idef r).metaUsage = idef.metaUsage := by
  cases r with
  | assign p v =>
    unfold applyRule
    by_cases h : p = "id" <;> simp [h]
  | assignInstance p n => rfl

lemma applyRules_metaUsage (rules : List ARule) :
    ∀ idef : InstanceDefinition, (applyRules rules idef).metaUsage = idef.metaUsage := by
  induction rules with
  | nil => intro idef; rfl
  | cons r rs ih =>
    intro idef
    show (applyRules rs (applyRule idef r)).metaUsage = _
    rw [ih, applyRule_metaUsage]

lemma applyRule_resourceType (idef : InstanceDefinition) (r : ARule) :
    (applyRule idef r).resourceType = idef.resourceType := by
  cases r with
  | assign p v =>
    unfold applyRule
    by_cases h : p = "id" <;> simp [h]
  | assignInstance p n => rfl

lemma applyRules_resourceType (rules : List ARule) :
    ∀ idef : InstanceDefinition, (applyRules rules idef).resourceType = idef.resourceType := by
  induction rules with
  | nil => intro idef; rfl
  | cons r rs ih =>
    intro idef
    show (applyRules rs (applyRule idef r)).resourceType = _
    rw [ih, applyRule_resourceType]

lemma validateId_metaUsage (idef : InstanceDefinition) (s : Nat) :
    ((validateId idef s).1).metaUsage = idef.metaUsage := by
  unfold validateId
  cases idef.id with
  | none => rfl
  | some i =>
    by_cases h1 : validFhirId i = true
    · simp [h1]
    · by_cases h2 : validFhirName i = true <;> simp [h1, h2]

lemma validateId_resourceType (idef : InstanceDefinition) (s : Nat) :
    ((validateId idef s).1).resourceType = idef.resourceType := by
  unfold validateId
  cases idef.id with
  | none => rfl
  | some i =>
    by_cases h1 : validFhirId i = true
    · simp [h1]
    · by_cases h2 : validFhirName i = true <;> simp [h1, h2]

lemma fishOrder_all_none (f : Fisher) (item : String)
    (h : ∀ k ∈ fishKinds, f.entries k item = none) :
    fishOrder f item fishKinds = none := by
  simp only [fishKinds] at h ⊢
  simp only [fishOrder, h FishKind.resource (by simp), h FishKind.profile (by simp),
    h FishKind.extension (by simp), h FishKind.fhirType (by simp)]

/-- `exportInstanceCore` on an unresolvable `instanceOf`: the error carries
the instance's name, `instanceOf` and span, and the state is untouched. -/
lemma exportInstanceCore_no_def (f : Fisher) (tank : List FshInstance)
    (recFn : Option (FshInstance → ExpState → ExpResult))
    (fsh : FshInstance) (st : ExpState)
    (hg : containsName st.instances fsh.fshId = false)
    (h : fishOrder f fsh.instanceOf fishKinds = none) :
    exportInstanceCore f tank recFn fsh st =
      (Except.error ⟨fsh.name, fsh.instanceOf, fsh.sourceInfo⟩, st) := by
  unfold exportInstanceCore
  rw [if_neg (by simp [hg]), h]

/-- `exportInstanceCore` on a non-resource kind: if it returns an
`InstanceDefinition`, that definition's usage is `Inline`. -/
lemma exportInstanceCore_not_resource_usage (f : Fisher) (tank : List FshInstance)
    (recFn : Option (FshInstance → ExpState → ExpResult))
    (fsh : FshInstance) (st st' : ExpState) (j : FHIRJson)
    (idef : InstanceDefinition)
    (hg : containsName st.instances fsh.fshId = false)
    (hj : fishOrder f fsh.instanceOf fishKinds = some j)
    (hk : ¬j.kind = "resource")
    (hrun : exportInstanceCore f tank recFn fsh st = (Except.ok (some idef), st')) :
    idef.metaUsage = some "Inline" := by
  unfold exportInstanceCore at hrun
  rw [if_neg (by simp [hg]), hj] at hrun
  dsimp only at hrun
  split at hrun
  · simp at hrun
  · unfold finishInstance at hrun
    dsimp only at hrun
    simp only [Prod.mk.injEq, Except.ok.injEq, Option.some.injEq] at hrun
    rw [← hrun.1, validateId_metaUsage, applyRules_metaUsage]
    simp [initIdef, hk]

end Exporter

namespace Exporter

/-- `exportInstanceCore` on a resource kind: a produced definition's
`resourceType` comes from the fished StructureDefinition. -/
lemma exportInstanceCore_resource_type (f : Fisher) (tank : List FshInstance)
    (recFn : Option (FshInstance → ExpState → ExpResult))
    (fsh : FshInstance) (st st' : ExpState) (j : FHIRJson)
    (idef : InstanceDefinition)
    (hg : containsName st.instances fsh.fshId = false)
    (hj : fishOrder f fsh.instanceOf fishKinds = some j)
    (hk : j.kind = "resource")
    (hrun : exportInstanceCore f tank recFn fsh st = (Except.ok (some idef), st')) :
    idef.resourceType = some j.type := by
  unfold exportInstanceCore at hrun
  rw [if_neg (by simp [hg]), hj] at hrun
  dsimp only at hrun
  split at hrun
  · simp at hrun
  · unfold finishInstance at hrun
    dsimp only at hrun
    simp only [Prod.mk.injEq, Except.ok.injEq, Option.some.injEq] at hrun
    rw [← hrun.1, validateId_resourceType, applyRules_resourceType]
    simp [initIdef, hk]

/-- `exportInstanceCore` on a rule-free non-resource instance: the one-shot
warning appears exactly when the author had not declared `Usage: #inline`. -/
lemma exportInstanceCore_not_resource_warn (f : Fisher) (tank : List FshInstance)
    (recFn : Option (FshInstance → ExpState → ExpResult))
    (fsh : FshInstance) (st : ExpState) (j : FHIRJson)
    (hg : containsName st.instances fsh.fshId = false)
    (hj : fishOrder f fsh.instanceOf fishKinds = some j)
    (hk : ¬j.kind = "resource") (hrules : fsh.rules = []) :
    (exportInstanceCore f tank recFn fsh st).2.log =
      st.log ++ (if fsh.usage = some "Inline" then []
        else [⟨LogLevel.warn, Msg.notAResource fsh.name, some fsh.sourceInfo⟩]) := by
  unfold exportInstanceCore
  rw [if_neg (by simp [hg]), hj]
  simp only [hk, hrules, List.map_nil]
  simp only [resolveInstanceRules, finishInstance, initIdef, initWarnLog,
    applyRules, List.foldl_nil, validateId]
  simp [hasDuplicate, hk]

end Exporter

open Exporter in
/-- **C2**: `exportInstance` resolves `instanceOf` by fishing with the kind
order Resource, Profile, Extension, Type (a hit in an earlier kind wins);
when nothing is found it raises `InstanceOfNotDefined` carrying the
instance's name, `instanceOf` and span, leaving the state untouched; a
definition of resource kind supplies the instance's `resourceType`; a
definition of non-resource kind forces the instance's usage to `Inline`,
with the warning emitted exactly when the author had not declared
`Usage: #inline`. -/
theorem c2_instance_of_resolution (f : Fisher) (tank : List FshInstance)
    (fuel : Nat) (fsh : FshInstance) (st : ExpState)
    (hg : containsName st.instances fsh.fshId = false) :
    ((∀ k ∈ fishKinds, f.entries k fsh.instanceOf = none) →
      exportInstance f tank fuel fsh st =
        (Except.error ⟨fsh.name, fsh.instanceOf, fsh.sourceInfo⟩, st)) ∧
    (∀ j, f.entries FishKind.resource fsh.instanceOf = some j →
      fishOrder f fsh.instanceOf fishKinds = some j) ∧
    (∀ j, f.entries FishKind.resource fsh.instanceOf = none →
      f.entries FishKind.profile fsh.instanceOf = some j →
      fishOrder f fsh.instanceOf fishKinds = some j) ∧
    (∀ j, f.entries FishKind.resource fsh.instanceOf = none →
      f.entries FishKind.profile fsh.instanceOf = none →
      f.entries FishKind.extension fsh.instanceOf = some j →
      fishOrder f fsh.instanceOf fishKinds = some j) ∧
    (∀ j, f.entries FishKind.resource fsh.instanceOf = none →
      f.entries FishKind.profile fsh.instanceOf = none →
      f.entries FishKind.extension fsh.instanceOf = none →
      f.entries FishKind.fhirType fsh.instanceOf = some j →
      fishOrder f fsh.instanceOf fishKinds = some j) ∧
    (∀ j idef st', fishOrder f fsh.instanceOf fishKinds = some j →
      j.kind = "resource" →
      exportInstance f tank fuel fsh st = (Except.ok (some idef), st') →
      idef.resourceType = some j.type) ∧
    (∀ j idef st', fishOrder f fsh.instanceOf fishKinds = some j →
      ¬j.kind = "resource" →
      exportInstance f tank fuel fsh st = (Except.ok (some idef), st') →
      idef.metaUsage = some "Inline") ∧
    (∀ j, fishOrder f fsh.instanceOf fishKinds = some j →
      ¬j.kind = "resource" → fsh.rules = [] →
      (exportInstance f tank fuel fsh st).2.log =
        st.log ++ (if fsh.usage = some "Inline" then []
          else [⟨LogLevel.warn, Msg.notAResource fsh.name, some fsh.sourceInfo⟩])) := by
  have hcore : exportInstance f tank fuel = exportInstanceCore f tank
      (match fuel with
        | 0 => none
        | n + 1 => some (exportInstance f tank n)) := by
    cases fuel <;> rfl
  refine ⟨?_, ?_, ?_, ?_, ?_, ?_, ?_, ?_⟩
  · intro hnone
    rw [hcore]
    exact exportInstanceCore_no_def f tank _ fsh st hg (fishOrder_all_none f _ hnone)
  · intro j h1
    simp [fishOrder, fishKinds, h1]
  · intro j h1 h2
    simp [fishOrder, fishKinds, h1, h2]
  · intro j h1 h2 h3
    simp [fishOrder, fishKinds, h1, h2, h3]
  · intro j h1 h2 h3 h4
    simp [fishOrder, fishKinds, h1, h2, h3, h4]
  · intro j idef st' hj hk hrun
    rw [hcore] at hrun
    exact exportInstanceCore_resource_type f tank _ fsh st st' j idef hg hj hk hrun
  · intro j idef st' hj hk hrun
    rw [hcore] at hrun
    exact exportInstanceCore_not_resource_usage f tank _ fsh st st' j idef hg hj hk hrun
  · intro j hj hk hrules
    rw [hcore]
    exact exportInstanceCore_not_resource_warn f tank _ fsh st j hg hj hk hrules

namespace Exporter

def demoQuantityJson : FHIRJson :=
  ⟨"complex-type", "Quantity", "http://example.org/Quantity", some "specialization"⟩

/-- A registry with entries under several kinds, to exercise the kind
order. -/
def demoFisher2 : Fisher :=
  ⟨fun k n =>
    if n = "Patient" ∧ k = FishKind.resource then some demoPatientJson
    else if n = "Quantity" ∧ k = FishKind.fhirType then some demoQuantityJson
    else if n = "Obs" ∧ k = FishKind.resource then some demoPatientJson
    else if n = "Obs" ∧ k = FishKind.profile then
      some ⟨"resource", "Observation", "http://example.org/ObsProfile", some "constraint"⟩
    else none⟩

end Exporter

open Exporter in
/-- Witness for C2: an unresolvable `instanceOf` raises the error and leaves
the state untouched; a name with both a Resource and a Profile entry
resolves to the Resource one; a name with only a Type entry resolves to it;
a non-resource instance gets usage `Inline` and the one-shot warning. -/
theorem c2_instance_of_resolution_witness :
    exportInstance demoFisher2 [] 1 ⟨"Foo", "Foo", "Baz", none, none, none, [], 9⟩ ⟨[], []⟩ =
      (Except.error ⟨"Foo", "Baz", 9⟩, ⟨[], []⟩) ∧
    fishOrder demoFisher2 "Obs" fishKinds = some demoPatientJson ∧
    fishOrder demoFisher2 "Quantity" fishKinds = some demoQuantityJson ∧
    (⟨"Q", some "Inline", none, none, none, none, some "Quantity", [], []⟩ :
        InstanceDefinition).metaUsage = some "Inline" ∧
    (exportInstance demoFisher2 [] 1
        ⟨"Q", "Q", "Quantity", some "Example", none, none, [], 3⟩ ⟨[], []⟩).2.log =
      [] ++ (if (some "Example" : Option String) = some "Inline" then []
        else [⟨LogLevel.warn, Msg.notAResource "Q", some 3⟩]) := by
  have hBaz := c2_instance_of_resolution demoFisher2 [] 1
    ⟨"Foo", "Foo", "Baz", none, none, none, [], 9⟩ ⟨[], []⟩ (by rfl)
  have hQ := c2_instance_of_resolution demoFisher2 [] 1
    ⟨"Q", "Q", "Quantity", some "Example", none, none, [], 3⟩ ⟨[], []⟩ (by rfl)
  have hObs := c2_instance_of_resolution demoFisher2 [] 1
    ⟨"O", "O", "Obs", none, none, none, [], 4⟩ ⟨[], []⟩ (by rfl)
  refine ⟨hBaz.1 (by decide), hObs.2.1 demoPatientJson (by decide),
    hQ.2.2.2.2.1 demoQuantityJson (by decide) (by decide) (by decide) (by decide),
    ?_, hQ.2.2.2.2.2.2.2 demoQuantityJson (by decide) (by decide) (by rfl)⟩
  exact hQ.2.2.2.2.2.2.1 demoQuantityJson
    ⟨"Q", some "Inline", none, none, none, none, some "Quantity", [], []⟩
    ⟨[⟨"Q", some "Inline", none, none, none, none, some "Quantity", [], []⟩],
      [⟨LogLevel.warn, Msg.notAResource "Q", some 3⟩]⟩
    (by decide) (by decide) (by rfl)

namespace Exporter

/-- Like `exportInstanceCore_one_assign`, but without assuming the assigned
id is valid: the produced definition and log go through `validateId`. -/
lemma exportInstanceCore_one_assign_validate (f : Fisher) (tank : List FshInstance)
    (recFn : Option (FshInstance → ExpState → ExpResult))
    (j : FHIRJson) (io n a v : String) (s : Nat) (u : Option String)
    (st : ExpState)
    (hg : containsName st.instances a = false)
    (hj : fishOrder f io fishKinds = some j) (hk : j.kind = "resource") :
    exportInstanceCore f tank recFn ⟨n, a, io, u, none, none, [ARule.assign "id" v], s⟩ st =
      (Except.ok (some (validateId ⟨a, u, none, none, some j.type, some v, none,
          if j.derivation = some "constraint" then [j.url] else [], []⟩ s).1),
        ⟨st.instances ++
          [(validateId ⟨a, u, none, none, some j.type, some v, none,
            if j.derivation = some "constraint" then [j.url] else [], []⟩ s).1],
          if hasDuplicate
              (st.instances ++
                [(validateId ⟨a, u, none, none, some j.type, some v, none,
                  if j.derivation = some "constraint" then [j.url] else [], []⟩ s).1])
              (validateId ⟨a, u, none, none, some j.type, some v, none,
                if j.derivation = some "constraint" then [j.url] else [], []⟩ s).1
          then st.log ++
            (validateId ⟨a, u, none, none, some j.type, some v, none,
              if j.derivation = some "constraint" then [j.url] else [], []⟩ s).2 ++
            [⟨LogLevel.error,
              Msg.duplicateInstanceId
                ((validateId ⟨a, u, none, none, some j.type, some v, none,
                  if j.derivation = some "constraint" then [j.url] else [], []⟩ s).1).resourceType
                ((validateId ⟨a, u, none, none, some j.type, some v, none,
                  if j.derivation = some "constraint" then [j.url] else [], []⟩ s).1).id,
              some s⟩]
          else st.log ++
            (validateId ⟨a, u, none, none, some j.type, some v, none,
              if j.derivation = some "constraint" then [j.url] else [], []⟩ s).2⟩) := by
  have hn : normRule (ARule.assign "id" v) = ARule.assign "id" v := rfl
  unfold exportInstanceCore
  rw [if_neg (by simp [hg])]
  simp only [hj, hk, hn, List.map_cons, List.map_nil, initIdef, initWarnLog]
  simp only [resolveInstanceRules]
  simp only [finishInstance, initIdef, applyRules, List.foldl_cons, List.foldl_nil,
    applyRule, if_pos rfl, replaceByName]
  simp only [List.map_append, List.map_cons, List.map_nil,
    map_replace_eq_self st.instances a _ hg]
  simp [hk]
  generalize (if j.derivation = some "constraint" then [j.url] else ([] : List String)) = mp
  split <;> rfl

end Exporter

namespace Exporter

lemma sanitizeId_length_le (v : String) : (sanitizeId v).length ≤ 64 := by
  unfold sanitizeId
  show ((v.data.map fun c => if c = '_' then '-' else c).take 64).length ≤ 64
  rw [List.length_take]
  omega

lemma sanitizeId_valid (v : String) (h : validFhirName v = true) :
    validFhirId (sanitizeId v) = true := by
  unfold validFhirName at h
  unfold validFhirId sanitizeId
  rcases hd : v.data with _ | ⟨c, rest⟩
  · rw [hd] at h
    simp at h
  · rw [hd] at h
    simp only [Bool.and_eq_true, decide_eq_true_eq] at h
    obtain ⟨⟨hc, hrest⟩, hlen⟩ := h
    have hall : ∀ x ∈ (c :: rest).map fun ch => if ch = '_' then '-' else ch,
        idChar x = true := by
      intro x hx
      rcases List.mem_map.1 hx with ⟨y, hy, rfl⟩
      by_cases hy_ : y = '_'
      · rw [if_pos hy_]
        decide
      · rw [if_neg hy_]
        rcases List.mem_cons.1 hy with rfl | hy'
        · simp [idChar, hc]
        · have hn := List.all_eq_true.1 hrest y hy'
          simp only [nameChar, Bool.or_eq_true, decide_eq_true_eq] at hn
          rcases hn with (h1 | h1) | h1
          · simp [idChar, h1]
          · simp [idChar, h1]
          · exact absurd h1 hy_
    show (1 ≤ (((c :: rest).map fun ch => if ch = '_' then '-' else ch).take 64).length &&
      (((c :: rest).map fun ch => if ch = '_' then '-' else ch).take 64).length ≤ 64 &&
      (((c :: rest).map fun ch => if ch = '_' then '-' else ch).take 64).all idChar) = true
    have h1 : (((c :: rest).map fun ch => if ch = '_' then '-' else ch).take 64).length =
        min 64 (rest.length + 1) := by
      rw [List.length_take, List.length_map, List.length_cons]
    simp only [Bool.and_eq_true, decide_eq_true_eq]
    refine ⟨⟨by omega, by omega⟩, ?_⟩
    rw [List.all_eq_true]
    intro x hx
    exact hall x (List.mem_of_mem_take hx)

end Exporter

namespace Exporter

lemma validateId_invalid (idef : InstanceDefinition) (s : Nat) (i : String)
    (hid : idef.id = some i) (h1 : validFhirId i = false)
    (h2 : validFhirName i = false) :
    validateId idef s = (idef, [⟨LogLevel.error, Msg.invalidId i, some s⟩]) := by
  unfold validateId
  rw [hid]
  simp [h1, h2]

lemma validateId_sanitize (idef : InstanceDefinition) (s : Nat) (i : String)
    (hid : idef.id = some i) (h1 : validFhirId i = false)
    (h2 : validFhirName i = true) :
    validateId idef s = ({ idef with id := some (sanitizeId i) },
      [⟨LogLevel.warn, Msg.sanitizedId i (sanitizeId i), some s⟩]) := by
  unfold validateId
  rw [hid]
  simp [h1, h2]

end Exporter

open Exporter in
/-- **C5**: For an exported instance whose assigned id is malformed, a
diagnostic is emitted but the instance is still kept in the Package with
that id; when the malformed id is an otherwise-valid FHIR name (as arises
from names containing an underscore), the exported id is the sanitized one
— underscores replaced by `-`, truncated to 64 characters, which is again a
valid FHIR id — and a warning is logged. -/
theorem c5_invalid_id_reported_but_emitted (f : Fisher) (tank : List FshInstance)
    (fuel : Nat) (j : FHIRJson) (io n a v : String) (s : Nat) (u : Option String)
    (st' : ExpState)
    (hj : fishOrder f io fishKinds = some j) (hk : j.kind = "resource")
    (hst : st' = (exportInstance f tank fuel
        ⟨n, a, io, u, none, none, [ARule.assign "id" v], s⟩ ⟨[], []⟩).2) :
    (validFhirId v = false → validFhirName v = false →
      (∃ i ∈ st'.instances, i.metaName = a ∧ i.id = some v) ∧
      ⟨LogLevel.error, Msg.invalidId v, some s⟩ ∈ st'.log) ∧
    (validFhirId v = false → validFhirName v = true → '_' ∈ v.data →
      (∃ i ∈ st'.instances, i.metaName = a ∧ i.id = some (sanitizeId v)) ∧
      ⟨LogLevel.warn, Msg.sanitizedId v (sanitizeId v), some s⟩ ∈ st'.log ∧
      validFhirId (sanitizeId v) = true) := by
  have key : ∀ recFn, st' =
      (exportInstanceCore f tank recFn
        ⟨n, a, io, u, none, none, [ARule.assign "id" v], s⟩ ⟨[], []⟩).2 →
      (validFhirId v = false → validFhirName v = false →
        (∃ i ∈ st'.instances, i.metaName = a ∧ i.id = some v) ∧
        ⟨LogLevel.error, Msg.invalidId v, some s⟩ ∈ st'.log) ∧
      (validFhirId v = false → validFhirName v = true → '_' ∈ v.data →
        (∃ i ∈ st'.instances, i.metaName = a ∧ i.id = some (sanitizeId v)) ∧
        ⟨LogLevel.warn, Msg.sanitizedId v (sanitizeId v), some s⟩ ∈ st'.log ∧
        validFhirId (sanitizeId v) = true) := by
    intro recFn hst'
    rw [exportInstanceCore_one_assign_validate f tank recFn j io n a v s u ⟨[], []⟩
      (by rfl) hj hk] at hst'
    constructor
    · intro h1 h2
      rw [validateId_invalid _ s v (by rfl) h1 h2] at hst'
      simp only [hasDuplicate_single, List.nil_append, if_neg Bool.false_ne_true] at hst'
      subst hst'
      refine ⟨⟨⟨a, u, none, none, some j.type, some v, none,
        if j.derivation = some "constraint" then [j.url] else [], []⟩,
        by simp, rfl, rfl⟩, by simp⟩
    · intro h1 h2 _
      rw [validateId_sanitize _ s v (by rfl) h1 h2] at hst'
      simp only [hasDuplicate_single, List.nil_append, if_neg Bool.false_ne_true] at hst'
      subst hst'
      refine ⟨⟨⟨a, u, none, none, some j.type, some (sanitizeId v), none,
        if j.derivation = some "constraint" then [j.url] else [], []⟩,
        by simp, rfl, rfl⟩, by simp, sanitizeId_valid v h2⟩
  cases fuel with
  | zero => exact key none hst
  | succ m => exact key _ hst

open Exporter in
/-- Witness for C5 at the test scenarios of `src/unnamed/part_001` lines
218-252: id `Some Patient` is reported invalid but the instance is still
emitted with it; id `Some_Patient` is a valid FHIR name and is exported
sanitized, with a warning. -/
theorem c5_invalid_id_reported_but_emitted_witness :
    ((∃ i ∈ ((exportInstance demoFisher [] 1
        ⟨"MyExample", "MyExample", "Patient", none, none, none,
          [ARule.assign "id" "Some Patient"], 3⟩ ⟨[], []⟩).2).instances,
      i.metaName = "MyExample" ∧ i.id = some "Some Patient") ∧
      ⟨LogLevel.error, Msg.invalidId "Some Patient", some 3⟩ ∈
        ((exportInstance demoFisher [] 1
          ⟨"MyExample", "MyExample", "Patient", none, none, none,
            [ARule.assign "id" "Some Patient"], 3⟩ ⟨[], []⟩).2).log) ∧
    ((∃ i ∈ ((exportInstance demoFisher [] 1
        ⟨"Foo", "Foo", "Patient", none, none, none,
          [ARule.assign "id" "Some_Patient"], 2⟩ ⟨[], []⟩).2).instances,
      i.metaName = "Foo" ∧ i.id = some (sanitizeId "Some_Patient")) ∧
      ⟨LogLevel.warn, Msg.sanitizedId "Some_Patient" (sanitizeId "Some_Patient"),
        some 2⟩ ∈
        ((exportInstance demoFisher [] 1
          ⟨"Foo", "Foo", "Patient", none, none, none,
            [ARule.assign "id" "Some_Patient"], 2⟩ ⟨[], []⟩).2).log ∧
      validFhirId (sanitizeId "Some_Patient") = true) := by
  have hbad := c5_invalid_id_reported_but_emitted demoFisher [] 1 demoPatientJson
    "Patient" "MyExample" "MyExample" "Some Patient" 3 none _ (by rfl) (by rfl) rfl
  have hsan := c5_invalid_id_reported_but_emitted demoFisher [] 1 demoPatientJson
    "Patient" "Foo" "Foo" "Some_Patient" 2 none _ (by rfl) (by rfl) rfl
  exact ⟨hbad.1 (by decide) (by decide), hsan.2 (by decide) (by decide) (by decide)⟩

namespace Exporter

def namesOf (l : List InstanceDefinition) : List String :=
  l.map fun i => i.metaName

lemma containsName_append (l1 l2 : List InstanceDefinition) (n : String) :
    containsName (l1 ++ l2) n = (containsName l1 n || containsName l2 n) := by
  simp [containsName, List.any_append]

lemma containsName_eq_false_iff (l : List InstanceDefinition) (n : String) :
    containsName l n = false ↔ n ∉ namesOf l := by
  simp only [containsName, namesOf, List.any_eq_true, decide_eq_true_eq, List.mem_map]
  constructor
  · intro h hmem
    rcases hmem with ⟨i, hi, hni⟩
    rw [Bool.eq_false_iff] at h
    exact h (List.any_eq_true.2 ⟨i, hi, by simp [hni]⟩)
  · intro h
    rw [Bool.eq_false_iff]
    intro hany
    rcases List.any_eq_true.1 hany with ⟨i, hi, hni⟩
    simp only [decide_eq_true_eq] at hni
    exact h ⟨i, hi, hni⟩

/-- The effect of one exporter call on the shared state: the package grows
by fresh entries only, each named after a fishable instance, and the log
only grows. -/
def Extends (f : Fisher) (P : FshInstance → Prop) (st out : ExpState) : Prop :=
  ∃ ext lext, out.instances = st.instances ++ ext ∧ out.log = st.log ++ lext ∧
    (∀ e ∈ ext, containsName st.instances e.metaName = false ∧
      ∃ g, P g ∧ e.metaName = g.fshId ∧
        fishOrder f g.instanceOf fishKinds ≠ none) ∧
    (ext.map fun e => e.metaName).Nodup

lemma Extends.refl (f : Fisher) (P : FshInstance → Prop) (st : ExpState) :
    Extends f P st st :=
  ⟨[], [], by simp, by simp, by simp, by simp⟩

lemma Extends.log (f : Fisher) (P : FshInstance → Prop) (st : ExpState)
    (l : List LogEntry) : Extends f P st { st with log := st.log ++ l } :=
  ⟨[], l, by simp, by simp, by simp, by simp⟩

lemma Extends.mono {f : Fisher} {P Q : FshInstance → Prop} {st out : ExpState}
    (hPQ : ∀ g, P g → Q g) (h : Extends f P st out) : Extends f Q st out := by
  rcases h with ⟨ext, lext, h1, h2, h3, h4⟩
  exact ⟨ext, lext, h1, h2,
    fun e he => ⟨(h3 e he).1, by
      rcases (h3 e he).2 with ⟨g, hg, hname, hfish⟩
      exact ⟨g, hPQ g hg, hname, hfish⟩⟩, h4⟩

lemma Extends.trans {f : Fisher} {P : FshInstance → Prop} {st st' st'' : ExpState}
    (h : Extends f P st st') (h' : Extends f P st' st'') :
    Extends f P st st'' := by
  rcases h with ⟨ext1, lext1, h1, h2, h3, h4⟩
  rcases h' with ⟨ext2, lext2, h1', h2', h3', h4'⟩
  refine ⟨ext1 ++ ext2, lext1 ++ lext2, by rw [h1', h1, List.append_assoc],
    by rw [h2', h2, List.append_assoc], ?_, ?_⟩
  · intro e he
    rcases List.mem_append.1 he with he1 | he2
    · exact h3 e he1
    · refine ⟨?_, (h3' e he2).2⟩
      have hcf := (h3' e he2).1
      rw [h1, containsName_append, Bool.or_eq_false_iff] at hcf
      exact hcf.1
  · rw [List.map_append, List.nodup_append]
    refine ⟨h4, h4', ?_⟩
    intro x hx1 hx2
    rcases List.mem_map.1 hx2 with ⟨e, he, rfl⟩
    have hcf := (h3' e he).1
    rw [h1, containsName_append, Bool.or_eq_false_iff] at hcf
    have := (containsName_eq_false_iff ext1 e.metaName).1 hcf.2
    exact this (by simpa [namesOf] using hx1)

lemma Extends.nodup {f : Fisher} {P : FshInstance → Prop} {st out : ExpState}
    (h : Extends f P st out) (hst : (namesOf st.instances).Nodup) :
    (namesOf out.instances).Nodup := by
  rcases h with ⟨ext, lext, h1, -, h3, h4⟩
  rw [h1]
  show ((st.instances ++ ext).map fun i => i.metaName).Nodup
  rw [List.map_append, List.nodup_append]
  refine ⟨hst, h4, ?_⟩
  intro x hx1 hx2
  rcases List.mem_map.1 hx2 with ⟨e, he, rfl⟩
  exact (containsName_eq_false_iff st.instances e.metaName).1 (h3 e he).1 hx1

lemma Extends.contains {f : Fisher} {P : FshInstance → Prop} {st out : ExpState}
    (h : Extends f P st out) (n : String)
    (hn : containsName st.instances n = true) :
    containsName out.instances n = true := by
  rcases h with ⟨ext, lext, h1, -, -, -⟩
  rw [h1, containsName_append, hn]
  rfl

lemma Extends.log_mem {f : Fisher} {P : FshInstance → Prop} {st out : ExpState}
    (h : Extends f P st out) (e : LogEntry) (he : e ∈ st.log) : e ∈ out.log := by
  rcases h with ⟨ext, lext, -, h2, -, -⟩
  rw [h2]
  exact List.mem_append_left _ he

end Exporter

namespace Exporter

lemma applyRule_metaName (idef : InstanceDefinition) (r : ARule) :
    (applyRule idef r).metaName = idef.metaName := by
  cases r with
  | assign p v =>
    unfold applyRule
    by_cases h : p = "id" <;> simp [h]
  | assignInstance p n => rfl

lemma applyRules_metaName (rules : List ARule) :
    ∀ idef : InstanceDefinition, (applyRules rules idef).metaName = idef.metaName := by
  induction rules with
  | nil => intro idef; rfl
  | cons r rs ih =>
    intro idef
    show (applyRules rs (applyRule idef r)).metaName = _
    rw [ih, applyRule_metaName]

lemma validateId_metaName (idef : InstanceDefinition) (s : Nat) :
    ((validateId idef s).1).metaName = idef.metaName := by
  unfold validateId
  cases idef.id with
  | none => rfl
  | some i =>
    by_cases h1 : validFhirId i = true
    · simp [h1]
    · by_cases h2 : validFhirName i = true <;> simp [h1, h2]

lemma namesOf_replaceByName (l : List InstanceDefinition) (n : String)
    (idef : InstanceDefinition) (h : idef.metaName = n) :
    namesOf (replaceByName l n idef) = namesOf l := by
  unfold namesOf replaceByName
  rw [List.map_map]
  refine List.map_congr_left fun i _ => ?_
  by_cases hi : i.metaName = n
  · simp [hi, h]
  · simp [hi]

lemma containsName_eq_true_iff (l : List InstanceDefinition) (n : String) :
    containsName l n = true ↔ n ∈ namesOf l := by
  simp [containsName, namesOf, List.any_eq_true]

lemma containsName_replaceByName (l : List InstanceDefinition) (n m : String)
    (idef : InstanceDefinition) (h : idef.metaName = n) :
    containsName (replaceByName l n idef) m = containsName l m := by
  have h1 := namesOf_replaceByName l n idef h
  by_cases hm : m ∈ namesOf l
  · rw [(containsName_eq_true_iff _ _).2 hm,
      (containsName_eq_true_iff _ _).2 (by rw [h1]; exact hm)]
  · rw [(containsName_eq_false_iff _ _).2 hm,
      (containsName_eq_false_iff _ _).2 (by rw [h1]; exact hm)]

/-- The recursion supplied to `resolveInstanceRules` only extends the
state. -/
def RecOk (f : Fisher) (tank : List FshInstance)
    (r : FshInstance → ExpState → ExpResult) : Prop :=
  ∀ g st, g ∈ tank → Extends f (fun h => h = g ∨ h ∈ tank) st (r g st).2

lemma resolveInstanceRules_extends (f : Fisher) (tank : List FshInstance)
    (recFn : Option (FshInstance → ExpState → ExpResult))
    (hrec : ∀ r, recFn = some r → RecOk f tank r) :
    ∀ (rules : List ARule) (st : ExpState),
      Extends f (fun h => h ∈ tank) st
        (resolveInstanceRules tank recFn rules st).2 := by
  intro rules
  induction rules with
  | nil => intro st; exact Extends.refl f _ st
  | cons r rs ih =>
    intro st
    cases r with
    | assign p v => exact ih st
    | assignInstance p nm =>
      show Extends f _ st (resolveInstanceRules tank recFn
        (ARule.assignInstance p nm :: rs) st).2
      simp only [resolveInstanceRules]
      by_cases hpkg : (pkgFish st.instances nm).isSome
      · rw [if_pos hpkg]
        exact ih st
      · rw [if_neg hpkg]
        rcases htank : tankFish tank nm with _ | g <;>
          rcases hrf : recFn with _ | r
        · subst hrf
          dsimp only
          exact Extends.trans (Extends.log f _ st
            [⟨LogLevel.error, Msg.cannotFindInstance nm, none⟩]) (ih _)
        · subst hrf
          dsimp only
          exact Extends.trans (Extends.log f _ st
            [⟨LogLevel.error, Msg.cannotFindInstance nm, none⟩]) (ih _)
        · subst hrf
          dsimp only
          exact Extends.trans (Extends.log f _ st
            [⟨LogLevel.error, Msg.cannotFindInstance nm, none⟩]) (ih _)
        · subst hrf
          have hgmem : g ∈ tank := List.mem_of_find?_eq_some htank
          have hext : Extends f (fun h => h ∈ tank) st (r g st).2 := by
            refine Extends.mono ?_ (hrec r rfl g st hgmem)
            intro h hh
            rcases hh with rfl | hh
            · exact hgmem
            · exact hh
          rcases hr : r g st with ⟨res, st'⟩
          have hext' : Extends f (fun h => h ∈ tank) st st' := by
            rw [hr] at hext
            exact hext
          dsimp only
          rw [hr]
          cases res with
          | error e => exact hext'
          | ok x =>
            dsimp only
            by_cases hpkg' : (pkgFish st'.instances nm).isSome
            · rw [if_pos hpkg']
              exact Extends.trans hext' (ih st')
            · rw [if_neg hpkg']
              exact Extends.trans hext'
                (Extends.trans (Extends.log f _ st'
                  [⟨LogLevel.error, Msg.cannotFindInstance nm, none⟩]) (ih _))

end Exporter

namespace Exporter

lemma containsName_append_singleton_false (l : List InstanceDefinition)
    (idef : InstanceDefinition) (n : String)
    (h : containsName (l ++ [idef]) n = false) :
    containsName l n = false ∧ ¬idef.metaName = n := by
  rw [containsName_append, Bool.or_eq_false_iff] at h
  refine ⟨h.1, ?_⟩
  have h2 := h.2
  simp [containsName] at h2
  exact h2

lemma initIdef_metaName (fsh : FshInstance) (json : FHIRJson) :
    (initIdef fsh json).metaName = fsh.fshId := rfl

lemma finishInstance_extends (f : Fisher) (P : FshInstance → Prop)
    (fsh : FshInstance) (json : FHIRJson) (rules1 : List ARule)
    (st st2 : ExpState) (ext2 : List InstanceDefinition) (lext2 : List LogEntry)
    (hg : containsName st.instances fsh.fshId = false)
    (hfish : fishOrder f fsh.instanceOf fishKinds ≠ none)
    (hP : P fsh)
    (h1 : st2.instances = (st.instances ++ [initIdef fsh json]) ++ ext2)
    (h3 : ∀ e ∈ ext2,
      containsName (st.instances ++ [initIdef fsh json]) e.metaName = false ∧
        ∃ g, P g ∧ e.metaName = g.fshId ∧
          fishOrder f g.instanceOf fishKinds ≠ none)
    (h4 : (ext2.map fun e => e.metaName).Nodup)
    (h2 : st2.log = (st.log ++ initWarnLog fsh json) ++ lext2) :
    Extends f P st (finishInstance fsh json rules1 st2).2 := by
  unfold finishInstance
  dsimp only
  have hname2 :
      ((validateId (applyRules rules1 (initIdef fsh json)) fsh.sourceInfo).1).metaName =
        fsh.fshId := by
    rw [validateId_metaName, applyRules_metaName, initIdef_metaName]
  have hext2names : ∀ e ∈ ext2, ¬e.metaName = fsh.fshId := by
    intro e he heq
    have := (containsName_append_singleton_false st.instances (initIdef fsh json)
      e.metaName (h3 e he).1).2
    exact this (by rw [initIdef_metaName, heq])
  have hrepl : replaceByName st2.instances fsh.fshId
      ((validateId (applyRules rules1 (initIdef fsh json)) fsh.sourceInfo).1) =
      st.instances ++
        ((validateId (applyRules rules1 (initIdef fsh json)) fsh.sourceInfo).1 :: ext2) := by
    rw [h1]
    unfold replaceByName
    rw [List.map_append, List.map_append,
      map_replace_eq_self st.instances fsh.fshId _ hg]
    rw [List.append_assoc]
    congr 1
    rw [List.map_cons, List.map_nil, if_pos (initIdef_metaName fsh json)]
    rw [List.singleton_append]
    congr 1
    refine (List.map_congr_left fun e he => ?_).trans (List.map_id ext2)
    rw [if_neg (hext2names e he)]
    rfl
  have hentry : ∀ e ∈ ((validateId (applyRules rules1 (initIdef fsh json))
      fsh.sourceInfo).1 :: ext2),
      containsName st.instances e.metaName = false ∧
        ∃ g, P g ∧ e.metaName = g.fshId ∧
          fishOrder f g.instanceOf fishKinds ≠ none := by
    intro e he
    rcases List.mem_cons.1 he with rfl | he2
    · rw [hname2]
      exact ⟨hg, fsh, hP, rfl, hfish⟩
    · refine ⟨(containsName_append_singleton_false st.instances _ _
        (h3 e he2).1).1, (h3 e he2).2⟩
  have hnodup : ((((validateId (applyRules rules1 (initIdef fsh json))
      fsh.sourceInfo).1 :: ext2)).map fun e => e.metaName).Nodup := by
    rw [List.map_cons, List.nodup_cons]
    refine ⟨?_, h4⟩
    intro hmem
    rcases List.mem_map.1 hmem with ⟨e, he, hne⟩
    exact hext2names e he (by rw [hne, hname2])
  by_cases hdup : hasDuplicate
      (replaceByName st2.instances fsh.fshId
        ((validateId (applyRules rules1 (initIdef fsh json)) fsh.sourceInfo).1))
      ((validateId (applyRules rules1 (initIdef fsh json)) fsh.sourceInfo).1) = true
  · rw [if_pos hdup]
    refine ⟨_, initWarnLog fsh json ++ lext2 ++
      (validateId (applyRules rules1 (initIdef fsh json)) fsh.sourceInfo).2 ++
      [⟨LogLevel.error,
        Msg.duplicateInstanceId
          ((validateId (applyRules rules1 (initIdef fsh json)) fsh.sourceInfo).1).resourceType
          ((validateId (applyRules rules1 (initIdef fsh json)) fsh.sourceInfo).1).id,
        some fsh.sourceInfo⟩],
      hrepl, ?_, hentry, hnodup⟩
    show st2.log ++ _ ++ _ = _
    rw [h2]
    simp [List.append_assoc]
  · rw [if_neg hdup]
    refine ⟨_, initWarnLog fsh json ++ lext2 ++
      (validateId (applyRules rules1 (initIdef fsh json)) fsh.sourceInfo).2,
      hrepl, ?_, hentry, hnodup⟩
    show st2.log ++ _ = _
    rw [h2]
    simp [List.append_assoc]

lemma exportInstanceCore_extends (f : Fisher) (tank : List FshInstance)
    (recFn : Option (FshInstance → ExpState → ExpResult))
    (fsh : FshInstance) (st : ExpState)
    (hrec : ∀ r, recFn = some r → RecOk f tank r) :
    Extends f (fun h => h = fsh ∨ h ∈ tank) st
      (exportInstanceCore f tank recFn fsh st).2 := by
  unfold exportInstanceCore
  by_cases hg : containsName st.instances fsh.fshId = true
  · rw [if_pos hg]
    exact Extends.refl f _ st
  · rw [if_neg (by simp [hg])]
    rw [Bool.not_eq_true] at hg
    rcases hj : fishOrder f fsh.instanceOf fishKinds with _ | json
    · exact Extends.refl f _ st
    · dsimp only
      have hfish : fishOrder f fsh.instanceOf fishKinds ≠ none := by
        rw [hj]
        simp
      have hstep1 : Extends f (fun h => h = fsh ∨ h ∈ tank) st
          ⟨st.instances ++ [initIdef fsh json], st.log ++ initWarnLog fsh json⟩ := by
        refine ⟨[initIdef fsh json], initWarnLog fsh json, rfl, rfl, ?_, by simp⟩
        intro e he
        rw [List.mem_singleton] at he
        subst he
        rw [initIdef_metaName]
        exact ⟨hg, fsh, Or.inl rfl, rfl, hfish⟩
      rcases hres : resolveInstanceRules tank recFn (fsh.rules.map normRule)
          ⟨st.instances ++ [initIdef fsh json], st.log ++ initWarnLog fsh json⟩
        with ⟨res, st2⟩
      have hstep2 : Extends f (fun h => h = fsh ∨ h ∈ tank)
          ⟨st.instances ++ [initIdef fsh json], st.log ++ initWarnLog fsh json⟩ st2 := by
        have hx := resolveInstanceRules_extends f tank recFn hrec
          (fsh.rules.map normRule)
          ⟨st.instances ++ [initIdef fsh json], st.log ++ initWarnLog fsh json⟩
        rw [hres] at hx
        exact Extends.mono (fun g hg' => Or.inr hg') hx
      cases res with
      | error e => exact Extends.trans hstep1 hstep2
      | ok x =>
        dsimp only
        rcases hstep2 with ⟨ext2, lext2, h1, h2, h3, h4⟩
        exact finishInstance_extends f _ fsh json (fsh.rules.map normRule) st st2
          ext2 lext2 hg hfish (Or.inl rfl) h1 h3 h4 h2

lemma Extends.contains_false {f : Fisher} {P : FshInstance → Prop}
    {st out : ExpState} (h : Extends f P st out) (n : String)
    (hn : containsName st.instances n = false)
    (hfresh : ∀ g, P g → g.fshId = n →
      fishOrder f g.instanceOf fishKinds = none) :
    containsName out.instances n = false := by
  rcases h with ⟨ext, lext, h1, -, h3, -⟩
  rw [h1, containsName_append, hn, Bool.false_or]
  rw [containsName_eq_false_iff]
  intro hmem
  rcases List.mem_map.1 hmem with ⟨e, he, hname⟩
  rcases (h3 e he).2 with ⟨g, hg, hgname, hgf⟩
  exact hgf (hfresh g hg (by rw [← hgname]; exact hname))

lemma exportInstance_extends (f : Fisher) (tank : List FshInstance) :
    ∀ (fuel : Nat) (fsh : FshInstance) (st : ExpState),
      Extends f (fun h => h = fsh ∨ h ∈ tank) st
        (exportInstance f tank fuel fsh st).2 := by
  intro fuel
  induction fuel with
  | zero =>
    intro fsh st
    exact exportInstanceCore_extends f tank none fsh st (fun r hr => by cases hr)
  | succ n ih =>
    intro fsh st
    refine exportInstanceCore_extends f tank
      (some (exportInstance f tank n)) fsh st ?_
    intro r hr
    injection hr with hr'
    subst hr'
    intro g st' hg
    exact ih g st'

lemma exportInstance_guard (f : Fisher) (tank : List FshInstance) (fuel : Nat)
    (fsh : FshInstance) (st : ExpState)
    (h : containsName st.instances fsh.fshId = true) :
    exportInstance f tank fuel fsh st = (Except.ok none, st) := by
  have hcore : exportInstance f tank fuel fsh st =
      exportInstanceCore f tank
        (match fuel with
          | 0 => none
          | n + 1 => some (exportInstance f tank n)) fsh st := by
    cases fuel <;> rfl
  rw [hcore]
  unfold exportInstanceCore
  rw [if_pos h]

lemma exportInstanceCore_fail (f : Fisher) (tank : List FshInstance)
    (recFn : Option (FshInstance → ExpState → ExpResult))
    (fsh : FshInstance) (st : ExpState)
    (hg : containsName st.instances fsh.fshId = false)
    (hf : fishOrder f fsh.instanceOf fishKinds = none) :
    exportInstanceCore f tank recFn fsh st =
      (Except.error ⟨fsh.name, fsh.instanceOf, fsh.sourceInfo⟩, st) := by
  unfold exportInstanceCore
  rw [if_neg (by rw [hg]; exact Bool.false_ne_true), hf]

lemma exportInstance_fail (f : Fisher) (tank : List FshInstance) (fuel : Nat)
    (fsh : FshInstance) (st : ExpState)
    (hg : containsName st.instances fsh.fshId = false)
    (hf : fishOrder f fsh.instanceOf fishKinds = none) :
    exportInstance f tank fuel fsh st =
      (Except.error ⟨fsh.name, fsh.instanceOf, fsh.sourceInfo⟩, st) := by
  have hcore : exportInstance f tank fuel fsh st =
      exportInstanceCore f tank
        (match fuel with
          | 0 => none
          | n + 1 => some (exportInstance f tank n)) fsh st := by
    cases fuel <;> rfl
  rw [hcore]
  exact exportInstanceCore_fail f tank _ fsh st hg hf

lemma finishInstance_containsName (fsh : FshInstance) (json : FHIRJson)
    (rules1 : List ARule) (st2 : ExpState) (m : String) :
    containsName ((finishInstance fsh json rules1 st2).2).instances m =
      containsName st2.instances m := by
  unfold finishInstance
  dsimp only
  by_cases hdup : hasDuplicate
      (replaceByName st2.instances fsh.fshId
        ((validateId (applyRules rules1 (initIdef fsh json)) fsh.sourceInfo).1))
      ((validateId (applyRules rules1 (initIdef fsh json)) fsh.sourceInfo).1) = true
  · rw [if_pos hdup]
    exact containsName_replaceByName _ _ _ _
      (by rw [validateId_metaName, applyRules_metaName, initIdef_metaName])
  · rw [if_neg hdup]
    exact containsName_replaceByName _ _ _ _
      (by rw [validateId_metaName, applyRules_metaName, initIdef_metaName])

lemma exportInstanceCore_contains (f : Fisher) (tank : List FshInstance)
    (recFn : Option (FshInstance → ExpState → ExpResult))
    (hrec : ∀ r, recFn = some r → RecOk f tank r)
    (fsh : FshInstance) (st : ExpState)
    (hf : fishOrder f fsh.instanceOf fishKinds ≠ none) :
    containsName ((exportInstanceCore f tank recFn fsh st).2).instances
      fsh.fshId = true := by
  unfold exportInstanceCore
  by_cases hg : containsName st.instances fsh.fshId = true
  · rw [if_pos hg]
    exact hg
  · rw [if_neg hg]
    rcases hj : fishOrder f fsh.instanceOf fishKinds with _ | json
    · exact absurd hj hf
    · dsimp only
      have h1 : containsName
          (st.instances ++ [initIdef fsh json]) fsh.fshId = true := by
        rw [containsName_append]
        have h2 : containsName [initIdef fsh json] fsh.fshId = true := by
          simp [containsName, initIdef_metaName]
        rw [h2, Bool.or_true]
      rcases hres : resolveInstanceRules tank recFn (fsh.rules.map normRule)
          ⟨st.instances ++ [initIdef fsh json], st.log ++ initWarnLog fsh json⟩
        with ⟨res, st2⟩
      have hst2 : containsName st2.instances fsh.fshId = true := by
        have hx := resolveInstanceRules_extends f tank recFn hrec
          (fsh.rules.map normRule)
          ⟨st.instances ++ [initIdef fsh json], st.log ++ initWarnLog fsh json⟩
        rw [hres] at hx
        exact hx.contains _ h1
      cases res with
      | error e => exact hst2
      | ok x =>
        dsimp only
        rw [finishInstance_containsName]
        exact hst2

lemma exportInstance_contains (f : Fisher) (tank : List FshInstance)
    (fuel : Nat) (fsh : FshInstance) (st : ExpState)
    (hf : fishOrder f fsh.instanceOf fishKinds ≠ none) :
    containsName ((exportInstance f tank fuel fsh st).2).instances
      fsh.fshId = true := by
  have hcore : exportInstance f tank fuel fsh st =
      exportInstanceCore f tank
        (match fuel with
          | 0 => none
          | n + 1 => some (exportInstance f tank n)) fsh st := by
    cases fuel <;> rfl
  rw [hcore]
  refine exportInstanceCore_contains f tank _ ?_ fsh st hf
  intro r hr
  cases fuel with
  | zero => cases hr
  | succ n =>
    injection hr with hr'
    subst hr'
    intro g st' hg
    exact exportInstance_extends f tank n g st'

lemma exportStep_extends (f : Fisher) (tank : List FshInstance) (fuel : Nat)
    (st : ExpState) (i : FshInstance) :
    Extends f (fun h => h = i ∨ h ∈ tank) st (exportStep f tank fuel st i) := by
  unfold exportStep
  rcases hres : exportInstance f tank fuel i st with ⟨res, st'⟩
  have hx : Extends f (fun h => h = i ∨ h ∈ tank) st st' := by
    have h0 := exportInstance_extends f tank fuel i st
    rw [hres] at h0
    exact h0
  cases res with
  | ok x => exact hx
  | error e =>
    dsimp only
    exact Extends.trans hx (Extends.log f _ st' _)

lemma foldl_exportStep_extends (f : Fisher) (tank : List FshInstance)
    (fuel : Nat) (P : FshInstance → Prop) (hT : ∀ g ∈ tank, P g) :
    ∀ (l : List FshInstance), (∀ g ∈ l, P g) → ∀ st : ExpState,
      Extends f P st (l.foldl (exportStep f tank fuel) st) := by
  intro l
  induction l with
  | nil =>
    intro _ st
    exact Extends.refl f P st
  | cons i is ih =>
    intro hl st
    show Extends f P st
      (is.foldl (exportStep f tank fuel) (exportStep f tank fuel st i))
    refine Extends.trans ?_ (ih (fun g hg => hl g (List.mem_cons_of_mem i hg)) _)
    refine Extends.mono ?_ (exportStep_extends f tank fuel st i)
    intro g hg
    rcases hg with rfl | hg
    · exact hl _ (List.mem_cons_self _ _)
    · exact hT g hg

lemma exportInstances_instances (f : Fisher) (tank : List FshInstance)
    (fuel : Nat) (insts : List FshInstance) (st : ExpState) :
    (exportInstances f tank fuel insts st).instances =
      (insts.foldl (exportStep f tank fuel) st).instances := by
  unfold exportInstances
  dsimp only
  split <;> rfl

lemma exportInstances_log_mem (f : Fisher) (tank : List FshInstance)
    (fuel : Nat) (insts : List FshInstance) (st : ExpState) (e : LogEntry)
    (he : e ∈ (insts.foldl (exportStep f tank fuel) st).log) :
    e ∈ (exportInstances f tank fuel insts st).log := by
  unfold exportInstances
  dsimp only
  split
  · exact List.mem_append_left _ he
  · exact he

lemma export_bad_not_exported (f : Fisher) (insts : List FshInstance)
    (fuel : Nat) (hnd : (insts.map fun i => i.fshId).Nodup)
    (bad : FshInstance) (hbad : bad ∈ insts)
    (hfail : fishOrder f bad.instanceOf fishKinds = none) :
    containsName (exportInstances f insts fuel insts ⟨[], []⟩).instances
      bad.fshId = false := by
  rw [exportInstances_instances]
  have hx := foldl_exportStep_extends f insts fuel (fun g => g ∈ insts)
    (fun g hg => hg) insts (fun g hg => hg) ⟨[], []⟩
  refine hx.contains_false _ rfl ?_
  intro g hg hname
  have hgb : g = bad := List.inj_on_of_nodup_map hnd hg hbad hname
  rw [hgb]
  exact hfail

lemma export_bad_logged (f : Fisher) (insts : List FshInstance)
    (fuel : Nat) (hnd : (insts.map fun i => i.fshId).Nodup)
    (bad : FshInstance) (hbad : bad ∈ insts)
    (hfail : fishOrder f bad.instanceOf fishKinds = none) :
    (⟨LogLevel.error, Msg.instanceOfNotDefined bad.name bad.instanceOf,
      some bad.sourceInfo⟩ : LogEntry) ∈
      (exportInstances f insts fuel insts ⟨[], []⟩).log := by
  rcases List.append_of_mem hbad with ⟨l1, l2, rfl⟩
  apply exportInstances_log_mem
  rw [List.foldl_append, List.foldl_cons]
  have hs1 : Extends f (fun g => g ∈ l1 ++ bad :: l2) ⟨[], []⟩
      (l1.foldl (exportStep f (l1 ++ bad :: l2) fuel) ⟨[], []⟩) :=
    foldl_exportStep_extends f _ fuel _ (fun g hg => hg) l1
      (fun g hg => List.mem_append_left _ hg) ⟨[], []⟩
  have hcf : containsName
      (l1.foldl (exportStep f (l1 ++ bad :: l2) fuel) ⟨[], []⟩).instances
      bad.fshId = false := by
    refine hs1.contains_false _ rfl ?_
    intro g hg hname
    have hgb : g = bad := List.inj_on_of_nodup_map hnd hg hbad hname
    rw [hgb]
    exact hfail
  have hstepgen : ∀ s : ExpState, containsName s.instances bad.fshId = false →
      exportStep f (l1 ++ bad :: l2) fuel s bad =
        { s with log := s.log ++
          [⟨LogLevel.error, Msg.instanceOfNotDefined bad.name bad.instanceOf,
            some bad.sourceInfo⟩] } := by
    intro s hs
    unfold exportStep
    rw [exportInstance_fail f _ fuel bad s hs hfail]
  have hstep := hstepgen
    (l1.foldl (exportStep f (l1 ++ bad :: l2) fuel) ⟨[], []⟩) hcf
  have hx2 := foldl_exportStep_extends f (l1 ++ bad :: l2) fuel
    (fun g => g ∈ l1 ++ bad :: l2) (fun g hg => hg) l2
    (fun g hg => List.mem_append_right _ (List.mem_cons_of_mem _ hg))
    (exportStep f (l1 ++ bad :: l2) fuel
      (l1.foldl (exportStep f (l1 ++ bad :: l2) fuel) ⟨[], []⟩) bad)
  refine hx2.log_mem _ ?_
  rw [hstep]
  exact List.mem_append_right _ (List.mem_singleton_self _)

lemma export_good_exported (f : Fisher) (insts : List FshInstance)
    (fuel : Nat) (good : FshInstance) (hgood : good ∈ insts)
    (hok : fishOrder f good.instanceOf fishKinds ≠ none) :
    containsName (exportInstances f insts fuel insts ⟨[], []⟩).instances
      good.fshId = true := by
  rw [exportInstances_instances]
  rcases List.append_of_mem hgood with ⟨l1, l2, rfl⟩
  rw [List.foldl_append, List.foldl_cons]
  have hstepgen : ∀ s : ExpState, containsName
      (exportStep f (l1 ++ good :: l2) fuel s good).instances
        good.fshId = true := by
    intro s
    unfold exportStep
    rcases hres : exportInstance f (l1 ++ good :: l2) fuel good s
      with ⟨res, st'⟩
    have hc := exportInstance_contains f (l1 ++ good :: l2) fuel good s hok
    rw [hres] at hc
    cases res with
    | ok x => exact hc
    | error e => exact hc
  have hstep := hstepgen
    (l1.foldl (exportStep f (l1 ++ good :: l2) fuel) ⟨[], []⟩)
  have hx2 := foldl_exportStep_extends f (l1 ++ good :: l2) fuel
    (fun g => g ∈ l1 ++ good :: l2) (fun g hg => hg) l2
    (fun g hg => List.mem_append_right _ (List.mem_cons_of_mem _ hg))
    (exportStep f (l1 ++ good :: l2) fuel
      (l1.foldl (exportStep f (l1 ++ good :: l2) fuel) ⟨[], []⟩) good)
  exact hx2.contains _ hstep

lemma exportInstances_nodup (f : Fisher) (insts : List FshInstance)
    (fuel : Nat) :
    (namesOf (exportInstances f insts fuel insts ⟨[], []⟩).instances).Nodup := by
  have h : (exportInstances f insts fuel insts ⟨[], []⟩).instances =
      (insts.foldl (exportStep f insts fuel) ⟨[], []⟩).instances :=
    exportInstances_instances f insts fuel insts ⟨[], []⟩
  rw [namesOf, h]
  exact (foldl_exportStep_extends f insts fuel (fun g => g ∈ insts)
    (fun g hg => hg) insts (fun g hg => hg) ⟨[], []⟩).nodup List.nodup_nil

/-- The instance of the failing-entity test (`src/unnamed/part_001` lines
81-91): its `instanceOf` resolves to nothing. -/
def badInst : FshInstance :=
  ⟨"Bad", "Bad", "Zed", none, none, none, [], 7⟩

/-- A companion instance whose `instanceOf` resolves. -/
def goodInst : FshInstance :=
  ⟨"Good", "Good", "Patient", none, none, none, [], 8⟩

end Exporter

namespace SDExp

def sdStep (resolve : String → Option String)
    (acc : List SDOut × List SDLogEntry) (e : FshExtension) :
    List SDOut × List SDLogEntry :=
  match exportExtension resolve e with
  | Except.ok sd => (acc.1 ++ [sd], acc.2)
  | Except.error (m, sp) =>
    (acc.1, acc.2 ++ [⟨Exporter.LogLevel.error, m, some sp⟩])

lemma exportAllExtensions_eq (resolve : String → Option String)
    (exts : List FshExtension) :
    exportAllExtensions resolve exts = exts.foldl (sdStep resolve) ([], []) := rfl

lemma foldl_sdStep_fst (resolve : String → Option String) :
    ∀ (exts : List FshExtension) (acc : List SDOut × List SDLogEntry),
      ((exts.foldl (sdStep resolve) acc).1.map fun sd => sd.name) =
        (acc.1.map fun sd => sd.name) ++
          ((exts.filter fun e => (resolve e.parent).isSome).map fun e => e.name) := by
  intro exts
  induction exts with
  | nil =>
    intro acc
    simp
  | cons e es ih =>
    intro acc
    rw [List.foldl_cons, ih, List.filter_cons]
    rcases h : resolve e.parent with _ | url <;>
      simp [sdStep, exportExtension, h]

lemma foldl_sdStep_snd (resolve : String → Option String) :
    ∀ (exts : List FshExtension) (acc : List SDOut × List SDLogEntry),
      (exts.foldl (sdStep resolve) acc).2 =
        acc.2 ++ ((exts.filter fun e => (resolve e.parent).isNone).map
          fun e => (⟨Exporter.LogLevel.error,
            SDMsg.parentNotDefined e.name e.parent,
            some e.sourceInfo⟩ : SDLogEntry)) := by
  intro exts
  induction exts with
  | nil =>
    intro acc
    simp
  | cons e es ih =>
    intro acc
    rw [List.foldl_cons, ih, List.filter_cons]
    rcases h : resolve e.parent with _ | url <;>
      simp [sdStep, exportExtension, h]

lemma sd_bad_isolated (resolve : String → Option String)
    (exts : List FshExtension) (hnd : (exts.map fun e => e.name).Nodup)
    (bad : FshExtension) (hbad : bad ∈ exts)
    (hfail : resolve bad.parent = none) :
    (⟨Exporter.LogLevel.error,
        SDMsg.parentNotDefined bad.name bad.parent,
        some bad.sourceInfo⟩ : SDLogEntry) ∈
      (exportAllExtensions resolve exts).2 ∧
    bad.name ∉ ((exportAllExtensions resolve exts).1.map fun sd => sd.name) := by
  rw [exportAllExtensions_eq]
  constructor
  · rw [foldl_sdStep_snd]
    refine List.mem_append_right _ ?_
    refine List.mem_map.2 ⟨bad, ?_, rfl⟩
    rw [List.mem_filter]
    refine ⟨hbad, ?_⟩
    rw [hfail]
    rfl
  · rw [foldl_sdStep_fst]
    rw [List.map_nil, List.nil_append]
    intro hmem
    rcases List.mem_map.1 hmem with ⟨e, he, hname⟩
    have hef := (List.mem_filter.1 he).2
    have heq : e = bad :=
      List.inj_on_of_nodup_map hnd (List.mem_filter.1 he).1 hbad hname
    rw [heq, hfail] at hef
    exact Bool.false_ne_true hef

lemma sd_good_exported (resolve : String → Option String)
    (exts : List FshExtension) (good : FshExtension) (hgood : good ∈ exts)
    (u : String) (hok : resolve good.parent = some u) :
    good.name ∈ ((exportAllExtensions resolve exts).1.map fun sd => sd.name) := by
  rw [exportAllExtensions_eq, foldl_sdStep_fst]
  refine List.mem_append_right _ ?_
  refine List.mem_map.2 ⟨good, ?_, rfl⟩
  rw [List.mem_filter]
  refine ⟨hgood, ?_⟩
  rw [hok]
  rfl

/-- The resolver of the extension tests: only `DomainResource` is a known
parent. -/
def demoResolve : String → Option String :=
  fun p =>
    if p = "DomainResource" then
      some "http://hl7.org/fhir/StructureDefinition/DomainResource"
    else none

/-- The extension of the failing-entity test
(`src/test/export/ExtensionExporter.test.ts` lines 46-55): parent `Baz`
does not resolve. -/
def badExt : FshExtension :=
  ⟨"Foo", "Baz", 14⟩

/-- The companion extension `Bar`, whose parent resolves. -/
def goodExt : FshExtension :=
  ⟨"Bar", "DomainResource", 15⟩

end SDExp

open Exporter SDExp in
/-- **C8**: a fatal error while exporting one entity is logged with that
entity's source span, the entity is omitted from the results, and the
remaining entities are still attempted and exported — for the Instance
Exporter (an unresolvable `instanceOf` raises `InstanceOfNotDefined`,
caught by the export loop) and for the StructureDefinition (Extension)
Exporter (an unresolvable parent fails that extension with
`ParentNotDefined`). -/
theorem c8_error_isolation
    (f : Fisher) (insts : List FshInstance) (fuel : Nat)
    (hnd : (insts.map fun i => i.fshId).Nodup)
    (bad : FshInstance) (hbad : bad ∈ insts)
    (hfail : fishOrder f bad.instanceOf fishKinds = none)
    (good : FshInstance) (hgood : good ∈ insts)
    (hok : fishOrder f good.instanceOf fishKinds ≠ none)
    (resolve : String → Option String) (exts : List SDExp.FshExtension)
    (hnde : (exts.map fun e => e.name).Nodup)
    (bade : SDExp.FshExtension) (hbade : bade ∈ exts)
    (hfaile : resolve bade.parent = none)
    (goode : SDExp.FshExtension) (hgoode : goode ∈ exts)
    (u : String) (hoke : resolve goode.parent = some u) :
    ((⟨LogLevel.error, Msg.instanceOfNotDefined bad.name bad.instanceOf,
        some bad.sourceInfo⟩ : LogEntry) ∈
        (exportInstances f insts fuel insts ⟨[], []⟩).log ∧
      containsName (exportInstances f insts fuel insts ⟨[], []⟩).instances
        bad.fshId = false ∧
      containsName (exportInstances f insts fuel insts ⟨[], []⟩).instances
        good.fshId = true) ∧
    ((⟨Exporter.LogLevel.error,
        SDMsg.parentNotDefined bade.name bade.parent,
        some bade.sourceInfo⟩ : SDLogEntry) ∈
        (exportAllExtensions resolve exts).2 ∧
      bade.name ∉ ((exportAllExtensions resolve exts).1.map fun sd => sd.name) ∧
      goode.name ∈ ((exportAllExtensions resolve exts).1.map fun sd => sd.name)) := by
  refine ⟨⟨export_bad_logged f insts fuel hnd bad hbad hfail,
    export_bad_not_exported f insts fuel hnd bad hbad hfail,
    export_good_exported f insts fuel good hgood hok⟩,
    (sd_bad_isolated resolve exts hnde bade hbade hfaile).1,
    (sd_bad_isolated resolve exts hnde bade hbade hfaile).2,
    sd_good_exported resolve exts goode hgoode u hoke⟩

open Exporter SDExp in
/-- Witness for C8 at the failing-entity tests: instance `Bad` with
`InstanceOf: Zed` fails and is skipped while `Good` is exported; extension
`Foo` with parent `Baz` fails and is skipped while `Bar` is exported. -/
theorem c8_error_isolation_witness :
    ((⟨LogLevel.error, Msg.instanceOfNotDefined "Bad" "Zed",
        some 7⟩ : LogEntry) ∈
        (exportInstances demoFisher [badInst, goodInst] 1
          [badInst, goodInst] ⟨[], []⟩).log ∧
      containsName (exportInstances demoFisher [badInst, goodInst] 1
        [badInst, goodInst] ⟨[], []⟩).instances "Bad" = false ∧
      containsName (exportInstances demoFisher [badInst, goodInst] 1
        [badInst, goodInst] ⟨[], []⟩).instances "Good" = true) ∧
    ((⟨Exporter.LogLevel.error, SDMsg.parentNotDefined "Foo" "Baz",
        some 14⟩ : SDLogEntry) ∈
        (exportAllExtensions demoResolve [badExt, goodExt]).2 ∧
      "Foo" ∉ ((exportAllExtensions demoResolve [badExt, goodExt]).1.map
        fun sd => sd.name) ∧
      "Bar" ∈ ((exportAllExtensions demoResolve [badExt, goodExt]).1.map
        fun sd => sd.name)) :=
  by
  have hfail : fishOrder demoFisher badInst.instanceOf fishKinds = none := by
    decide
  have hok : fishOrder demoFisher goodInst.instanceOf fishKinds ≠ none := by
    decide
  have hfaile : demoResolve badExt.parent = none := by
    decide
  have hoke : demoResolve goodExt.parent =
      some "http://hl7.org/fhir/StructureDefinition/DomainResource" := by
    decide
  exact c8_error_isolation demoFisher [badInst, goodInst] 1 (by decide)
    badInst (by decide) hfail
    goodInst (by decide) hok
    demoResolve [badExt, goodExt] (by decide)
    badExt (by decide) hfaile
    goodExt (by decide)
    "http://hl7.org/fhir/StructureDefinition/DomainResource" hoke

open Exporter in
/-- **C9**: exporting is idempotent at the package level: when the fish-id
of an instance already names a package entry — however it got there,
including by an on-demand inline export — `exportInstance` returns `none`
without touching the state, and consequently the package produced by a full
export run holds each instance name at most once. -/
theorem c9_export_once (f : Fisher) (tank : List FshInstance) (fuel : Nat)
    (fsh : FshInstance) (st : ExpState)
    (h : containsName st.instances fsh.fshId = true) :
    exportInstance f tank fuel fsh st = (Except.ok none, st) ∧
    ∀ (insts : List FshInstance) (fuel2 : Nat),
      (namesOf (exportInstances f insts fuel2 insts ⟨[], []⟩).instances).Nodup :=
  ⟨exportInstance_guard f tank fuel fsh st h,
    fun insts fuel2 => exportInstances_nodup f insts fuel2⟩

open Exporter in
/-- Witness for C9 at the only-export-once test (`src/unnamed/part_001`
lines 1825-1848): re-exporting `Good` over a package already holding it
changes nothing, and a full run over the demo instances yields pairwise
distinct package names. -/
theorem c9_export_once_witness :
    exportInstance demoFisher [] 1 goodInst
      ⟨[⟨"Good", none, none, none, some "Patient", some "Good", none, [], []⟩],
        []⟩ =
      (Except.ok none,
        ⟨[⟨"Good", none, none, none, some "Patient", some "Good", none, [], []⟩],
          []⟩) ∧
    (namesOf (exportInstances demoFisher [badInst, goodInst] 1
      [badInst, goodInst] ⟨[], []⟩).instances).Nodup := by
  refine ⟨(c9_export_once demoFisher [] 1 goodInst
    ⟨[⟨"Good", none, none, none, some "Patient", some "Good", none, [], []⟩],
      []⟩ (by decide)).1, ?_⟩
  exact (c9_export_once demoFisher [] 1 goodInst
    ⟨[⟨"Good", none, none, none, some "Patient", some "Good", none, [], []⟩],
      []⟩ (by decide)).2 [badInst, goodInst] 1

namespace Exporter

end Exporter
end Sushi
